import Mathlib

/-
Verification of the Kraken-Templates CLI core (src/cli/__init__.py):
the Jinja template introspector (TemplateIntrospector), the TOML skeleton
builder (_build_toml_template), command substitution
(_substitute_command_blocks), variable substitution (_substitute_variables),
command-value normalization (_coerce_command_value), context resolution
(_resolve_context_values), and the recipe engine (_load_recipe_actions,
_should_run_action, _execute_recipe_actions).

Python's external collaborators (duckdb storage, click prompts, the editor,
subprocess execution, the jinja2 evaluator and tomllib parsing) are modelled
as oracle parameters; everything written in the repository itself is
transcribed directly.
-/

namespace Kraken

/-! ## Jinja AST subset

The parsed template body, as produced by jinja2's `Environment.parse`.
Child lists of the Python AST are encoded as `nodeList`/`nodeNil` chains;
visiting a chain visits its head and then its tail, exactly in the order
`NodeVisitor.generic_visit` iterates children. -/

/-- A target of a for loop: a bare name or a (possibly nested) tuple. -/
inductive JTarget where
  | tname (id : String)
  | tnil
  | tcons (head tail : JTarget)
deriving DecidableEq, Repr

/-- Jinja syntax nodes relevant to the introspector: name references,
constants, attribute and index access, literal sequences, output statements
and for statements. -/
inductive JNode where
  | name (id : String)
  | constStr (s : String)
  | constOther
  | getattr (obj : JNode) (attr : String)
  | getitem (obj : JNode) (key : JNode)
  | output (body : JNode)
  | forStmt (target : JTarget) (iter : JNode) (body : JNode) (els : JNode)
  | nodeList (head : JNode) (tail : JNode)
  | nodeNil
deriving DecidableEq, Repr

/-! ## TemplateIntrospector -/

/-- The mutable state of `TemplateIntrospector`: the two classification
mappings plus the scope stack and the loop stack.  Stacks grow at the head,
so the head is the innermost frame (Python appends and pops at the end and
iterates with `reversed`). -/
structure IState where
  listFields : List (String × List String)
  nestedFields : List (String × List String)
  scopeStack : List (List String)
  loopStack : List (List String × Option String)
deriving DecidableEq, Repr

/-- Fresh introspector state: empty mappings, one empty scope, no loops. -/
def initState : IState := ⟨[], [], [[]], []⟩

/-- `defaultdict(set)` update: add `a` to the set at key `k`, creating the
entry if absent.  Insertion order of keys and of attributes is kept. -/
def addAttr (m : List (String × List String)) (k a : String) :
    List (String × List String) :=
  match m with
  | [] => [(k, [a])]
  | (k1, as) :: rest =>
      if k1 = k then (k1, if a ∈ as then as else as ++ [a]) :: rest
      else (k1, as) :: addAttr rest k a

/-- Membership of a key in one of the classification mappings
(Python's `name in dict`). -/
def keyMem (m : List (String × List String)) (k : String) : Bool :=
  m.any (fun p => p.1 = k)

/-- Lookup in a classification mapping. -/
def lookupA (m : List (String × List String)) (k : String) :
    Option (List String) :=
  match m with
  | [] => none
  | (k1, as) :: rest => if k1 = k then some as else lookupA rest k

/-- `TemplateIntrospector._literal_key`: a `Getitem` key contributes only
when it is a literal string constant. -/
def literalKey : JNode → Option String
  | .constStr s => some s
  | _ => none

/-- Worker for `_flatten_access`: walk down the chained access nodes
collecting field names; succeed only on bottoming out at a bare name. -/
def flattenGo : JNode → List String → List String
  | .getattr obj attr, acc => flattenGo obj (attr :: acc)
  | .getitem obj key, acc =>
      match literalKey key with
      | some k => flattenGo obj (k :: acc)
      | none => []
  | .name id, acc => id :: acc
  | _, _ => []

/-- `TemplateIntrospector._flatten_access`: the dotted access path of an
access chain, root first, or `[]` when reconstruction aborts. -/
def flattenAccess (n : JNode) : List String := flattenGo n []

/-- `TemplateIntrospector._is_local`: the name is bound by some scope on the
stack. -/
def isLocal (st : IState) (name : String) : Bool :=
  st.scopeStack.any (fun scope => name ∈ scope)

/-- `TemplateIntrospector._loop_iter_for_local`: the iterable name recorded
by the innermost loop binding whose target set contains `name`. -/
def loopIterFind (stack : List (List String × Option String)) (name : String) :
    Option String :=
  match stack with
  | [] => none
  | (targets, iterName) :: rest =>
      if name ∈ targets then iterName else loopIterFind rest name

/-- `TemplateIntrospector._extract_target_names`, flattening tuple targets. -/
def extractTargetNames : JTarget → List String
  | .tname id => [id]
  | .tnil => []
  | .tcons h t => extractTargetNames h ++ extractTargetNames t

/-- `TemplateIntrospector._iterable_name`: record the iterable only when it is
a bare name reference. -/
def iterableName : JNode → Option String
  | .name id => some id
  | _ => none

/-- `TemplateIntrospector._register_access`: classify one access chain.
The `iterName.isEmpty` test mirrors Python's truthiness test
`if iter_name:` on the recorded iterable name. -/
def registerAccess (st : IState) (n : JNode) : IState :=
  match flattenAccess n with
  | base :: attr :: _ =>
      if isLocal st base then
        match loopIterFind st.loopStack base with
        | some iterName =>
            if iterName.isEmpty then st
            else { st with listFields := addAttr st.listFields iterName attr }
        | none => st
      else { st with nestedFields := addAttr st.nestedFields base attr }
  | _ => st

/-- The visitor: `visit_For` pushes the flattened target names plus the
implicit "loop" name before the body, pops before the else clause;
`visit_Getattr`/`visit_Getitem` register the access and then generically
visit the children.  `visit_For` does not visit the target or the iterable,
exactly as the source's `visit_For` only iterates `node.body` and
`node.else_`. -/
def visitNode : JNode → IState → IState
  | .name _, st => st
  | .constStr _, st => st
  | .constOther, st => st
  | .getattr obj attr, st => visitNode obj (registerAccess st (.getattr obj attr))
  | .getitem obj key, st =>
      visitNode key (visitNode obj (registerAccess st (.getitem obj key)))
  | .output body, st => visitNode body st
  | .forStmt target iter body els, st =>
      let targetNames := extractTargetNames target
      let iterName := iterableName iter
      let pushed : IState :=
        { st with loopStack := (targetNames, iterName) :: st.loopStack,
                  scopeStack := (targetNames ++ ["loop"]) :: st.scopeStack }
      let afterBody := visitNode body pushed
      let popped : IState :=
        { afterBody with scopeStack := afterBody.scopeStack.tail,
                         loopStack := afterBody.loopStack.tail }
      visitNode els popped
  | .nodeList h t, st => visitNode t (visitNode h st)
  | .nodeNil, st => st

/-- Run the introspector over a parsed template body. -/
def introspect (t : JNode) : IState := visitNode t initState

/-! ## Undeclared variables and access bases -/

/-- Modelled from the spec: jinja2's `meta.find_undeclared_variables`
(the classifier contract's "set of free (undeclared) top-level names").
A read of a name is free unless an enclosing for loop binds it via its
target (or it is the implicit "loop" name inside a loop body); the iterable
and the else clause of a loop are analyzed outside the loop's scope. -/
def freeVars (bound : List String) : JNode → List String
  | .name id => if id ∈ bound then [] else [id]
  | .constStr _ => []
  | .constOther => []
  | .getattr obj _ => freeVars bound obj
  | .getitem obj key => freeVars bound obj ++ freeVars bound key
  | .output body => freeVars bound body
  | .forStmt target iter body els =>
      freeVars bound iter
        ++ freeVars (extractTargetNames target ++ "loop" :: bound) body
        ++ freeVars bound els
  | .nodeList h t => freeVars bound h ++ freeVars bound t
  | .nodeNil => []

/-- Lexicographic (code point) string order, as Python's `sorted` uses. -/
def charListLe : List Char → List Char → Bool
  | [], _ => true
  | _ :: _, [] => false
  | a :: as, b :: bs => if a = b then charListLe as bs else decide (a < b)

/-- String comparison for sorting. -/
def strLe (a b : String) : Bool := charListLe a.data b.data

/-- Insert into a sorted list of strings. -/
def insertSorted (x : String) : List String → List String
  | [] => [x]
  | y :: ys => if strLe x y then x :: y :: ys else y :: insertSorted x ys

/-- Python's `sorted` on a list of strings (insertion sort; on the
duplicate-free lists produced here any correct sort agrees). -/
def sortStrings (xs : List String) : List String := xs.foldr insertSorted []

/-- Insert into a key-sorted association list. -/
def insertByKey {α : Type} (x : String × α) :
    List (String × α) → List (String × α)
  | [] => [x]
  | y :: ys => if strLe x.1 y.1 then x :: y :: ys else y :: insertByKey x ys

/-- Python's `sorted(dict.items())` (keys are distinct, so any correct sort
agrees). -/
def sortByKey {α : Type} (xs : List (String × α)) : List (String × α) :=
  xs.foldr insertByKey []

/-- `sorted(meta.find_undeclared_variables(parsed))`: the sorted set of
undeclared names. -/
def globalVarsOf (t : JNode) : List String := sortStrings (freeVars [] t).dedup

/-- Python's whitespace class for `str.strip()`: space, tab, newline,
carriage return, vertical tab, form feed. -/
def isPyWhitespace (c : Char) : Bool :=
  c = ' ' || c = '\t' || c = '\n' || c = '\r' || c = '\x0b' || c = '\x0c'

/-- Python's `str.strip()`: drop leading and trailing whitespace. -/
def pyStrip (s : String) : String :=
  ⟨((s.data.dropWhile isPyWhitespace).reverse.dropWhile isPyWhitespace).reverse⟩

/-! ## TOML values and the skeleton document -/

/-- A value of the structured-configuration format, as produced by
`tomllib.loads` and consumed by preset merge, context resolution and the
recipe engine. -/
inductive TomlVal where
  | str (s : String)
  | int (n : Int)
  | bool (b : Bool)
  | arr (xs : List TomlVal)
  | tbl (kvs : List (String × TomlVal))

/-- A value stored in the tomlkit skeleton document: scalars, inline arrays,
tables and arrays-of-tables. -/
inductive DocItem where
  | str (s : String)
  | int (n : Int)
  | bool (b : Bool)
  | arr (xs : List DocItem)
  | tbl (entries : List (String × DocItem))
  | aot (rows : List DocItem)

/-- A top-level entry of the tomlkit document: a comment or a keyed value. -/
inductive DocEntry where
  | comment (text : String)
  | kv (key : String) (val : DocItem)

/-- `doc[key] = value` on the tomlkit document: replace an existing binding
or append a new one at the end. -/
def setKV (d : List DocEntry) (k : String) (v : DocItem) : List DocEntry :=
  match d with
  | [] => [.kv k v]
  | .comment c :: rest => .comment c :: setKV rest k v
  | .kv k1 v1 :: rest =>
      if k1 = k then .kv k v :: rest else .kv k1 v1 :: setKV rest k v

/-- `target.get(key)` on the document. -/
def lookupDoc (d : List DocEntry) (k : String) : Option DocItem :=
  match d with
  | [] => none
  | .comment _ :: rest => lookupDoc rest k
  | .kv k1 v :: rest => if k1 = k then some v else lookupDoc rest k

/-- `table[key] = value` inside a table: replace or append. -/
def setKVP (d : List (String × DocItem)) (k : String) (v : DocItem) :
    List (String × DocItem) :=
  match d with
  | [] => [(k, v)]
  | (k1, v1) :: rest =>
      if k1 = k then (k, v) :: rest else (k1, v1) :: setKVP rest k v

/-- `table.get(key)` inside a table. -/
def lookupTbl (d : List (String × DocItem)) (k : String) : Option DocItem :=
  match d with
  | [] => none
  | (k1, v) :: rest => if k1 = k then some v else lookupTbl rest k

/-! ## Preset merge (`_apply_preset_to_doc`) -/

mutual

/-- tomlkit's conversion of a plain parsed value into a document item. -/
def tomlValToItem : TomlVal → DocItem
  | .str s => .str s
  | .int n => .int n
  | .bool b => .bool b
  | .arr xs => .arr (tomlValsToItems xs)
  | .tbl kvs => .tbl (tomlKvsToItems kvs)

/-- Elementwise conversion of a parsed array. -/
def tomlValsToItems : List TomlVal → List DocItem
  | [] => []
  | x :: xs => tomlValToItem x :: tomlValsToItems xs

/-- Entrywise conversion of a parsed table. -/
def tomlKvsToItems : List (String × TomlVal) → List (String × DocItem)
  | [] => []
  | (k, v) :: rest => (k, tomlValToItem v) :: tomlKvsToItems rest

end

mutual

/-- `_apply_preset_to_doc` at document level: iterate the preset keys in
order, applying each onto the target. -/
def applyPresetDoc (target : List DocEntry) :
    List (String × TomlVal) → List DocEntry
  | [] => target
  | (k, v) :: rest => applyPresetDoc (applyPresetDocOne target k v) rest

/-- One preset key applied at document level: nested mappings merge
recursively into an existing table (created when absent); a sequence
replaces the rows of an existing array-of-tables, otherwise overwrites the
key with the raw sequence; any other value overwrites directly. -/
def applyPresetDocOne (target : List DocEntry) (k : String) (v : TomlVal) :
    List DocEntry :=
  match v with
  | .tbl kvs =>
      match lookupDoc target k with
      | some (.tbl entries) => setKV target k (.tbl (applyPresetTbl entries kvs))
      | _ => setKV target k (.tbl (applyPresetTbl [] kvs))
  | .arr xs =>
      match lookupDoc target k with
      | some (.aot _) => setKV target k (.aot (presetRows xs))
      | _ => setKV target k (tomlValToItem (.arr xs))
  | _ => setKV target k (tomlValToItem v)

/-- `_apply_preset_to_doc` applied inside a table. -/
def applyPresetTbl (target : List (String × DocItem)) :
    List (String × TomlVal) → List (String × DocItem)
  | [] => target
  | (k, v) :: rest => applyPresetTbl (applyPresetTblOne target k v) rest

/-- One preset key applied inside a table. -/
def applyPresetTblOne (target : List (String × DocItem)) (k : String)
    (v : TomlVal) : List (String × DocItem) :=
  match v with
  | .tbl kvs =>
      match lookupTbl target k with
      | some (.tbl entries) => setKVP target k (.tbl (applyPresetTbl entries kvs))
      | _ => setKVP target k (.tbl (applyPresetTbl [] kvs))
  | .arr xs =>
      match lookupTbl target k with
      | some (.aot _) => setKVP target k (.aot (presetRows xs))
      | _ => setKVP target k (tomlValToItem (.arr xs))
  | _ => setKVP target k (tomlValToItem v)

/-- Rows appended into a cleared array-of-tables: a mapping element becomes a
fresh table built by recursive merge; any other element is inserted raw. -/
def presetRows : List TomlVal → List DocItem
  | [] => []
  | .tbl kvs :: rest => .tbl (applyPresetTbl [] kvs) :: presetRows rest
  | x :: rest => tomlValToItem x :: presetRows rest

end

/-! ## Skeleton builder (`_build_toml_template`) -/

/-- The leading comment of every skeleton document. -/
def headerText : String :=
  "Update the values below and save to render the template."

/-- The scalar free variables, in sorted order: undeclared names in neither
`list_fields` nor `nested_fields`. -/
def scalarVarsOf (t : JNode) : List String :=
  (globalVarsOf t).filter
    (fun n => !keyMem (introspect t).listFields n
      && !keyMem (introspect t).nestedFields n)

/-- The nested-table free variables with their observed attributes, in the
sorted order of the undeclared-variable list. -/
def tableVarsOf (t : JNode) : List (String × List String) :=
  (globalVarsOf t).filterMap
    (fun n =>
      if keyMem (introspect t).listFields n then none
      else
        match lookupA (introspect t).nestedFields n with
        | some attrs => some (n, attrs)
        | none => none)

/-- The table item emitted for one nested-table variable. -/
def tableItemFor (attrs : List String) : DocItem :=
  .tbl ((sortStrings attrs).map (fun a => (a, DocItem.str "")))

/-- The one-element array-of-tables emitted for one list variable; the field
set defaults to the single field "value" when no attributes were recorded. -/
def aotItemFor (attrs : List String) : DocItem :=
  .aot [.tbl ((sortStrings (if attrs.isEmpty then ["value"] else attrs)).map
    (fun a => (a, DocItem.str "")))]

/-- The skeleton document of `_build_toml_template` before serialization:
the leading comment, then empty scalar slots in sorted order, then tables
sorted by name, then one-element arrays-of-tables sorted by name, then the
optional preset merged on top (Python's `if preset:` skips a `None` or empty
preset). -/
def buildDoc (t : JNode) (preset : Option (List (String × TomlVal))) :
    List DocEntry :=
  let doc0 : List DocEntry := [.comment headerText]
  let doc1 := ((scalarVarsOf t).map (fun v => (v, DocItem.str ""))).foldl
    (fun d p => setKV d p.1 p.2) doc0
  let doc2 := ((sortByKey (tableVarsOf t)).map
      (fun p => (p.1, tableItemFor p.2))).foldl
    (fun d p => setKV d p.1 p.2) doc1
  let doc3 := ((sortByKey (introspect t).listFields).map
      (fun p => (p.1, aotItemFor p.2))).foldl
    (fun d p => setKV d p.1 p.2) doc2
  match preset with
  | none => doc3
  | some [] => doc3
  | some ps => applyPresetDoc doc3 ps

/-! ## Serialization (tomlkit `dumps`, modelled)

Modelled from the spec's structured-configuration format: only the shapes
the skeleton builder produces (comments, string scalars, flat tables and
arrays of flat tables) occur on the claims' paths, and for those the
rendering below matches tomlkit's output linewise. -/

mutual

/-- Inline rendering of a document item. -/
def renderItem : DocItem → String
  | .str s => "\"" ++ s ++ "\""
  | .int n => toString n
  | .bool b => if b then "true" else "false"
  | .arr xs => "[" ++ renderItems xs ++ "]"
  | .tbl entries => "\x7b " ++ renderPairs entries ++ " \x7d"
  | .aot rows => "[" ++ renderItems rows ++ "]"

/-- Comma-separated rendering of a list of items. -/
def renderItems : List DocItem → String
  | [] => ""
  | [x] => renderItem x
  | x :: y :: rest => renderItem x ++ ", " ++ renderItems (y :: rest)

/-- Comma-separated rendering of key-value pairs. -/
def renderPairs : List (String × DocItem) → String
  | [] => ""
  | [(k, v)] => k ++ " = " ++ renderItem v
  | (k, v) :: p :: rest => k ++ " = " ++ renderItem v ++ ", " ++ renderPairs (p :: rest)

end

/-- Rendering of one top-level entry. -/
def renderEntry : DocEntry → String
  | .comment c => "# " ++ c ++ "\n"
  | .kv k (.tbl entries) =>
      "[" ++ k ++ "]\n" ++
        String.join (entries.map (fun p => p.1 ++ " = " ++ renderItem p.2 ++ "\n"))
  | .kv k (.aot rows) =>
      String.join (rows.map (fun row =>
        match row with
        | .tbl entries =>
            "[[" ++ k ++ "]]\n" ++
              String.join (entries.map
                (fun p => p.1 ++ " = " ++ renderItem p.2 ++ "\n"))
        | other => "[[" ++ k ++ "]]\n" ++ renderItem other ++ "\n"))
  | .kv k v => k ++ " = " ++ renderItem v ++ "\n"

/-- `dumps(doc)`. -/
def renderDoc (d : List DocEntry) : String := String.join (d.map renderEntry)

/-- `_build_toml_template`: serialize the skeleton, strip surrounding
whitespace, and return it followed by a newline — or the empty string when
nothing remains. -/
def buildTomlTemplate (t : JNode) (preset : Option (List (String × TomlVal))) :
    String :=
  let rendered := pyStrip (renderDoc (buildDoc t preset))
  if rendered = "" then "" else rendered ++ "\n"

/-! ## Command substitution (`_substitute_command_blocks`)

`COMMAND_PATTERN` is the regex `\{>(.+?)<\}` with `DOTALL`: an opening
marker, at least one character (non-greedy, newlines included), a closing
marker.  `re.sub` scans left to right: the leftmost position admitting a
match wins, the inner text is the shortest nonempty one, and scanning
resumes after the closing marker — the replacement text is never rescanned.
The external shell is an oracle `String → Int × String × String` giving
return code, captured stdout and captured stderr; process spawning itself
is assumed to succeed (the `OSError` branch is out of the claims' scope). -/

/-- Find the earliest occurrence of the closing marker, splitting the text
into the part before it and the part after it. -/
def splitClose : List Char → Option (List Char × List Char)
  | [] => none
  | c :: rest =>
      if c = '<' then
        match rest with
        | [] => none
        | r :: rest1 =>
            if r = '\x7d' then some ([], rest1)
            else (splitClose rest).map (fun p => (c :: p.1, p.2))
      else (splitClose rest).map (fun p => (c :: p.1, p.2))

/-- As `splitClose`, but the inner text must be nonempty (the regex's `.+?`
consumes at least one character before the closing marker). -/
def splitCloseNE : List Char → Option (List Char × List Char)
  | [] => none
  | c :: rest => (splitClose rest).map (fun p => (c :: p.1, p.2))

/-- Leftmost match of `COMMAND_PATTERN`: the text before the marker, the
inner text, and the text after the closing marker. -/
def findMarker : List Char → Option (List Char × List Char × List Char)
  | [] => none
  | c :: rest =>
      if c = '\x7b' then
        match rest with
        | [] => none
        | r :: rest1 =>
            if r = '>' then
              match splitCloseNE rest1 with
              | some (inner, post) => some ([], inner, post)
              | none =>
                  (findMarker rest).map (fun t => (c :: t.1, t.2.1, t.2.2))
            else (findMarker rest).map (fun t => (c :: t.1, t.2.1, t.2.2))
      else (findMarker rest).map (fun t => (c :: t.1, t.2.1, t.2.2))

/-- Python's `str.rstrip("\n")`: drop trailing newline characters only. -/
def rstripNewlines (s : String) : String :=
  ⟨(s.data.reverse.dropWhile (fun c => c = '\n')).reverse⟩

/-- The error message for an empty command block. -/
def emptyBlockMsg : String :=
  "Encountered empty command substitution block \x7b><\x7d."

/-- The error message for a failed command. -/
def commandFailedMsg (command : String) (code : Int) (stderr : String) : String :=
  "Command '" ++ command ++ "' failed with exit code " ++ toString code ++
    (if pyStrip stderr = "" then "" else ": " ++ pyStrip stderr)

/-- The `_run` replacement callback: trim the inner text, reject an empty
command, run the shell, fail on a non-zero exit code (mentioning the exit
code and, when non-empty, the trimmed stderr), or return stdout with
trailing newlines stripped. -/
def runCommandBlock (shell : String → Int × String × String)
    (innerRaw : String) : Except String String :=
  let command := pyStrip innerRaw
  if command = "" then .error emptyBlockMsg
  else
    match shell command with
    | (code, out, err) =>
        if code ≠ 0 then .error (commandFailedMsg command code err)
        else .ok (rstripNewlines out)

/-- The scanning loop of `COMMAND_PATTERN.sub(_run, content)`: replace each
marker in turn, aborting on the first failing command; text already
substituted in is never rescanned.  The fuel argument only bounds the
number of markers processed; each found marker strictly shortens the
remaining text, so the wrapper's `s.length + 1` never runs out (proved
below as fuel irrelevance). -/
def substCommandGo (shell : String → Int × String × String) :
    Nat → List Char → Except String (List Char)
  | 0, s => .ok s
  | fuel + 1, s =>
      match findMarker s with
      | none => .ok s
      | some (pre, inner, post) =>
          match runCommandBlock shell ⟨inner⟩ with
          | .error e => .error e
          | .ok rep =>
              match substCommandGo shell fuel post with
              | .error e => .error e
              | .ok tail => .ok (pre ++ rep.data ++ tail)

/-- The scan over a character list with sufficient fuel. -/
def substCommandChars (shell : String → Int × String × String)
    (s : List Char) : Except String (List Char) :=
  substCommandGo shell (s.length + 1) s

/-- `_substitute_command_blocks`. -/
def substituteCommandBlocks (shell : String → Int × String × String)
    (content : String) : Except String String :=
  match substCommandChars shell content.data with
  | .error e => .error e
  | .ok cs => .ok ⟨cs⟩

/-! ## Variable substitution (`_substitute_variables`)

`VARIABLE_PATTERN` is `\$\((?P<name>[A-Za-z_][A-Za-z0-9_]*)\)`. -/

/-- First character class of an identifier. -/
def isIdentStart (c : Char) : Bool := c.isAlpha || c = '_'

/-- Subsequent character class of an identifier. -/
def isIdentChar (c : Char) : Bool := c.isAlphanum || c = '_'

/-- Match `VARIABLE_PATTERN` at the head of the text: dollar, open paren,
a maximal identifier, close paren.  Returns the identifier and the rest. -/
def placeholderAt : List Char → Option (String × List Char)
  | '$' :: '(' :: c :: cs =>
      if isIdentStart c then
        match cs.dropWhile isIdentChar with
        | ')' :: post => some (⟨c :: cs.takeWhile isIdentChar⟩, post)
        | _ => none
      else none
  | _ => none

/-- Leftmost match of `VARIABLE_PATTERN`: text before the placeholder, the
identifier, text after the closing paren. -/
def findPlaceholder : List Char → Option (List Char × String × List Char)
  | [] => none
  | a :: rest =>
      match placeholderAt (a :: rest) with
      | some (name, post) => some ([], name, post)
      | none => (findPlaceholder rest).map (fun t => (a :: t.1, t.2.1, t.2.2))

/-- The recipe variable table: name to string value, in insertion order. -/
abbrev Vars := List (String × String)

/-- Dictionary membership for the variable table. -/
def keyMemS (vars : Vars) (k : String) : Bool := vars.any (fun p => p.1 = k)

/-- Dictionary lookup for the variable table. -/
def lookupS (vars : Vars) (k : String) : Option String :=
  match vars with
  | [] => none
  | (k1, v) :: rest => if k1 = k then some v else lookupS rest k

/-- Dictionary assignment `vars[k] = v`: replace or append. -/
def setVar (vars : Vars) (k v : String) : Vars :=
  match vars with
  | [] => [(k, v)]
  | (k1, v1) :: rest =>
      if k1 = k then (k, v) :: rest else (k1, v1) :: setVar rest k v

/-- The error message of `_substitute_variables` for an unknown name. -/
def unknownVarMsg (name : String) : String :=
  "Unknown variable '" ++ name ++ "' referenced in recipe action."

/-- The scanning loop of `VARIABLE_PATTERN.sub(_replace, text)`: replace
each placeholder in turn, failing at the first unknown name; replacement
text is never rescanned.  Fuel as in `substCommandGo`. -/
def substVarsGo (vars : Vars) : Nat → List Char → Except String (List Char)
  | 0, s => .ok s
  | fuel + 1, s =>
      match findPlaceholder s with
      | none => .ok s
      | some (pre, name, post) =>
          match lookupS vars name with
          | none => .error (unknownVarMsg name)
          | some v =>
              match substVarsGo vars fuel post with
              | .error e => .error e
              | .ok tail => .ok (pre ++ v.data ++ tail)

/-- The scan over a character list with sufficient fuel. -/
def substVarsChars (vars : Vars) (s : List Char) : Except String (List Char) :=
  substVarsGo vars (s.length + 1) s

/-- `_substitute_variables`: replace every `$(name)` placeholder using the
table; an unknown name is a hard failure naming the identifier. -/
def substituteVariables (text : String) (vars : Vars) : Except String String :=
  match substVarsChars vars text.data with
  | .error e => .error e
  | .ok cs => .ok ⟨cs⟩

/-- The identifiers of all placeholders, in scanning order (fueled like the
substitution loop). -/
def placeholderNamesGo : Nat → List Char → List String
  | 0, _ => []
  | fuel + 1, s =>
      match findPlaceholder s with
      | none => []
      | some (_, name, post) => name :: placeholderNamesGo fuel post

/-- The identifiers of all placeholders of a text, in scanning order. -/
def placeholderNames (s : List Char) : List String :=
  placeholderNamesGo (s.length + 1) s

/-! ## Command-value normalization (`_coerce_command_value`) -/

/-- A normalized command entry: run as one shell line, or run with an
explicit argument vector. -/
inductive CommandEntry where
  | shellLine (line : String)
  | argVector (args : List String)
deriving DecidableEq, Repr

/-- Extract a list of strings from a parsed array when every element is a
string (`all(isinstance(item, str) for item in value)`). -/
def asStrings : List TomlVal → Option (List String)
  | [] => some []
  | .str s :: rest => (asStrings rest).map (fun ss => s :: ss)
  | _ => none

/-- Failure message for a malformed element of a mixed command list. -/
def mixedCommandMsg : String :=
  "Command actions must provide strings, lists of strings, " ++
    "or a list combining those command definitions."

/-- Failure message for a command value of the wrong type. -/
def commandTypeMsg : String :=
  "Command actions must provide 'command' as a string, list of strings, " ++
    "or list of command definitions."

/-- Failure message for an empty command list. -/
def emptyCommandMsg : String :=
  "Command actions must provide a non-empty 'command' value."

/-- Normalization of one element of a mixed command list: a string is a
shell line; a nonempty list of strings is an argument vector (Python's
`isinstance(item, list) and item and all(...)`); anything else fails. -/
def coerceCommandElem : TomlVal → Except String CommandEntry
  | .str s => .ok (.shellLine s)
  | .arr items =>
      match items, asStrings items with
      | _ :: _, some ss => .ok (.argVector ss)
      | _, _ => .error mixedCommandMsg
  | _ => .error mixedCommandMsg

/-- Elementwise normalization of a mixed command list, failing at the first
malformed element. -/
def coerceCommandList : List TomlVal → Except String (List CommandEntry)
  | [] => .ok []
  | x :: xs =>
      match coerceCommandElem x with
      | .error e => .error e
      | .ok entry =>
          match coerceCommandList xs with
          | .error e => .error e
          | .ok rest => .ok (entry :: rest)

/-- `_coerce_command_value`: a bare string is one shell-line entry; an empty
list is a failure; a list of strings is exactly one argument-vector entry;
any other list is normalized elementwise; any other value is a failure. -/
def coerceCommandValue : TomlVal → Except String (List CommandEntry)
  | .str s => .ok [.shellLine s]
  | .arr xs =>
      match xs with
      | [] => .error emptyCommandMsg
      | _ :: _ =>
          match asStrings xs with
          | some ss => .ok [.argVector ss]
          | none => coerceCommandList xs
  | _ => .error commandTypeMsg

/-! ## Context resolution (`_resolve_context_values`) -/

mutual

/-- `_resolve_context_values`: a string first gets `$(...)` substitution; if
substitution left it unchanged and the whole string is a known variable
name, the variable's raw value is returned instead; lists and mappings are
resolved elementwise; everything else is returned unchanged. -/
def resolveContextValues (vars : Vars) : TomlVal → Except String TomlVal
  | .str s =>
      match substituteVariables s vars with
      | .error e => .error e
      | .ok resolved =>
          if resolved = s then
            match lookupS vars s with
            | some raw => .ok (.str raw)
            | none => .ok (.str resolved)
          else .ok (.str resolved)
  | .arr xs =>
      match resolveContextList vars xs with
      | .error e => .error e
      | .ok ys => .ok (.arr ys)
  | .tbl kvs =>
      match resolveContextTbl vars kvs with
      | .error e => .error e
      | .ok kvs1 => .ok (.tbl kvs1)
  | .int n => .ok (.int n)
  | .bool b => .ok (.bool b)

/-- Elementwise resolution of a list value. -/
def resolveContextList (vars : Vars) :
    List TomlVal → Except String (List TomlVal)
  | [] => .ok []
  | x :: xs =>
      match resolveContextValues vars x with
      | .error e => .error e
      | .ok y =>
          match resolveContextList vars xs with
          | .error e => .error e
          | .ok ys => .ok (y :: ys)

/-- Valuewise resolution of a mapping value, keeping keys. -/
def resolveContextTbl (vars : Vars) :
    List (String × TomlVal) → Except String (List (String × TomlVal))
  | [] => .ok []
  | (k, v) :: rest =>
      match resolveContextValues vars v with
      | .error e => .error e
      | .ok v1 =>
          match resolveContextTbl vars rest with
          | .error e => .error e
          | .ok rest1 => .ok ((k, v1) :: rest1)

end

/-! ## Dotted-key expansion (`_expand_dotted_context_keys`) -/

/-- Lookup in a parsed table. -/
def lookupT (m : List (String × TomlVal)) (k : String) : Option TomlVal :=
  match m with
  | [] => none
  | (k1, v) :: rest => if k1 = k then some v else lookupT rest k

/-- Assignment in a parsed table: replace or append. -/
def setT (m : List (String × TomlVal)) (k : String) (v : TomlVal) :
    List (String × TomlVal) :=
  match m with
  | [] => [(k, v)]
  | (k1, v1) :: rest =>
      if k1 = k then (k, v) :: rest else (k1, v1) :: setT rest k v

/-- Python's `dict.update`: entrywise shallow assignment. -/
def updateT (m src : List (String × TomlVal)) : List (String × TomlVal) :=
  match src with
  | [] => m
  | (k, v) :: rest => updateT (setT m k v) rest

/-- The walk along the split segments of one dotted key, mirroring the
mutable descent in `_expand_dotted_context_keys`: intermediate segments
must be (or become) nested tables; at the leaf, a table may not be
overwritten by a scalar, two tables merge shallowly, anything else
assigns. -/
def insertAtPath (m : List (String × TomlVal)) (key : String)
    (parts : List String) (value : TomlVal) :
    Except String (List (String × TomlVal)) :=
  match parts with
  | [] => .ok m
  | [leaf] =>
      match lookupT m leaf, value with
      | some (.tbl existing), .tbl kvs => .ok (setT m leaf (.tbl (updateT existing kvs)))
      | some (.tbl _), _ =>
          .error ("Context key '" ++ key ++ "' cannot override nested values under '"
            ++ leaf ++ "'.")
      | _, _ => .ok (setT m leaf value)
  | part :: rest =>
      match lookupT m part with
      | none =>
          match insertAtPath [] key rest value with
          | .error e => .error e
          | .ok sub => .ok (setT m part (.tbl sub))
      | some (.tbl existing) =>
          match insertAtPath existing key rest value with
          | .error e => .error e
          | .ok sub => .ok (setT m part (.tbl sub))
      | some _ =>
          .error ("Context key '" ++ key ++ "' conflicts with previously defined scalar '"
            ++ part ++ "'.")

mutual

/-- `_expand_dotted_context_keys`: expand `"a.b.c"` style keys into nested
tables, folding each entry into the accumulated result. -/
def expandDotted : List (String × TomlVal) →
    Except String (List (String × TomlVal))
  | [] => .ok []
  | kvs => expandDottedGo [] kvs

/-- Worker: process the entries in order over the accumulated mapping. -/
def expandDottedGo (acc : List (String × TomlVal)) :
    List (String × TomlVal) → Except String (List (String × TomlVal))
  | [] => .ok acc
  | (key, v) :: rest =>
      match expandDottedVal v with
      | .error e => .error e
      | .ok v1 =>
          match insertAtPath acc key (key.splitOn ".") v1 with
          | .error e => .error e
          | .ok acc1 => expandDottedGo acc1 rest

/-- Nested mapping values are expanded recursively before insertion. -/
def expandDottedVal : TomlVal → Except String TomlVal
  | .tbl kvs =>
      match expandDottedGo [] kvs with
      | .error e => .error e
      | .ok kvs1 => .ok (.tbl kvs1)
  | v => .ok v

end

/-! ## The recipe engine

External collaborators (click prompts, the editor, subprocess execution,
tomllib parsing, the jinja2 parser and strict-undefined evaluator) are
oracle parameters; file writes always succeed in this model (no claim
concerns I/O failure). -/

/-- One parsed recipe action: a TOML table. -/
abbrev Action := List (String × TomlVal)

/-- Observable side effects of recipe execution, in order. -/
inductive Event where
  | echo (text : String)
  | storeVar (name value : String)
  | ranShell (line : String)
  | ranArgv (args : List String)
  | fileWrite (path content : String)
deriving DecidableEq, Repr

/-- The external collaborators of the recipe engine. -/
structure Collab where
  confirm : String → Bool
  promptIn : String → Option String → String
  runShellLine : String → Vars → Int
  runShellArgv : List String → Vars → Int
  fetchTemplate : String → Option String
  editText : String → Option String
  parseToml : String → Except String (List (String × TomlVal))
  parseJinja : String → JNode
  jinjaRender : String → List (String × TomlVal) → Except String String
  shellCapture : String → Int × String × String

/-- `_load_recipe_actions` after `tomllib.loads`: the document must hold a
nonempty list under "actions"; every entry must be a table with a nonempty
string "type". -/
def checkActions (index : Nat) : List TomlVal → Except String (List Action)
  | [] => .ok []
  | .tbl kvs :: rest =>
      match lookupT kvs "type" with
      | some (.str t) =>
          if t = "" then
            .error ("Action #" ++ toString index ++ " is missing a 'type'.")
          else
            match checkActions (index + 1) rest with
            | .error e => .error e
            | .ok acts => .ok (kvs :: acts)
      | _ => .error ("Action #" ++ toString index ++ " is missing a 'type'.")
  | _ :: _ =>
      .error ("Action #" ++ toString index ++ " must be a TOML table.")

/-- `_load_recipe_actions` on the parsed recipe document. -/
def loadRecipeActions (parsed : List (String × TomlVal)) :
    Except String (List Action) :=
  match lookupT parsed "actions" with
  | some (.arr (x :: xs)) => checkActions 1 (x :: xs)
  | _ => .error "Recipe must define at least one [[actions]] entry."

/-- The gate error message of `_should_run_action`. -/
def gateMsg (index : Nat) : String :=
  "Action #" ++ toString index ++ " gate must be a non-empty string when provided."

/-- `_should_run_action`: no gate means run; a gate that is not a nonempty
string is a hard failure; otherwise substitute variables into it and ask
for confirmation, reporting a skip on refusal. -/
def shouldRunAction (C : Collab) (action : Action) (vars : Vars)
    (index : Nat) : List Event × Except String Bool :=
  match lookupT action "gate" with
  | none => ([], .ok true)
  | some (.str g) =>
      if g = "" then ([], .error (gateMsg index))
      else
        match substituteVariables g vars with
        | .error e => ([], .error e)
        | .ok prompt =>
            if C.confirm ("[" ++ toString index ++ "] " ++ prompt) then
              ([], .ok true)
            else
              ([.echo ("[" ++ toString index ++ "] Skipping action.")], .ok false)
  | some _ => ([], .error (gateMsg index))

/-- Python's `str()` of a parsed scalar, for prompt defaults. -/
def pyStr : TomlVal → String
  | .str s => s
  | .int n => toString n
  | .bool b => if b then "True" else "False"
  | .arr _ => "[...]"
  | .tbl _ => "\x7b...\x7d"

/-- `_run_prompt_action`: require nonempty prompt text and variable name,
collect a line (offering the stringified default when present), store it. -/
def runPromptAction (C : Collab) (action : Action) (vars : Vars)
    (index : Nat) : List Event × Except String Vars :=
  match lookupT action "prompt" with
  | some (.str p) =>
      if p = "" then
        ([], .error ("Prompt action #" ++ toString index ++
          " must include a non-empty 'prompt'."))
      else
        match lookupT action "var" with
        | some (.str v) =>
            if v = "" then
              ([], .error ("Prompt action #" ++ toString index ++
                " must include a non-empty 'var'."))
            else
              let defaultV := (lookupT action "default").map pyStr
              let value := C.promptIn p defaultV
              ([.storeVar v value,
                .echo ("[" ++ toString index ++ "] Stored variable '" ++ v ++ "'.")],
               .ok (setVar vars v value))
        | _ =>
            ([], .error ("Prompt action #" ++ toString index ++
              " must include a non-empty 'var'."))
  | _ =>
      ([], .error ("Prompt action #" ++ toString index ++
        " must include a non-empty 'prompt'."))

/-- Substitution over every element of an argument vector. -/
def substArgs (vars : Vars) : List String → Except String (List String)
  | [] => .ok []
  | a :: rest =>
      match substituteVariables a vars with
      | .error e => .error e
      | .ok a1 =>
          match substArgs vars rest with
          | .error e => .error e
          | .ok rest1 => .ok (a1 :: rest1)

/-- The loop body of `_run_command_action`: execute the normalized entries
in order, substituting variables, stopping at the first non-zero exit. -/
def runCommandEntries (C : Collab) (index : Nat) (vars : Vars) :
    List CommandEntry → List Event × Except String Unit
  | [] => ([.echo ("[" ++ toString index ++ "] Command completed successfully.")],
      .ok ())
  | .shellLine s :: rest =>
      match substituteVariables s vars with
      | .error e => ([], .error e)
      | .ok text =>
          let code := C.runShellLine text vars
          if code ≠ 0 then
            ([.ranShell text],
             .error ("Command action #" ++ toString index ++
               " exited with code " ++ toString code ++ "."))
          else
            match runCommandEntries C index vars rest with
            | (ev, r) => (.ranShell text :: ev, r)
  | .argVector args :: rest =>
      match substArgs vars args with
      | .error e => ([], .error e)
      | .ok args1 =>
          let code := C.runShellArgv args1 vars
          if code ≠ 0 then
            ([.ranArgv args1],
             .error ("Command action #" ++ toString index ++
               " exited with code " ++ toString code ++ "."))
          else
            match runCommandEntries C index vars rest with
            | (ev, r) => (.ranArgv args1 :: ev, r)

/-- `_run_command_action`: require a "command" field, normalize it, execute
the entries. -/
def runCommandAction (C : Collab) (action : Action) (vars : Vars)
    (index : Nat) : List Event × Except String Unit :=
  match lookupT action "command" with
  | none => ([], .error ("Command action #" ++ toString index ++
      " must define a 'command' field."))
  | some v =>
      match coerceCommandValue v with
      | .error e => ([], .error e)
      | .ok entries => runCommandEntries C index vars entries

/-- `_prompt_context_for_template`: build the skeleton (merging the preset),
return the preset (or an empty context) when the skeleton is blank, else
open the editor and parse the edited TOML. -/
def promptContextForTemplate (C : Collab) (content : String)
    (preset : Option (List (String × TomlVal))) :
    Except String (List (String × TomlVal)) :=
  let seed := buildTomlTemplate (C.parseJinja content) preset
  if pyStrip seed = "" then .ok (preset.getD [])
  else
    match C.editText seed with
    | none => .error "Editor closed without saving variables."
    | some src =>
        match C.parseToml src with
        | .error e => .error ("Invalid TOML: " ++ e)
        | .ok ctx => .ok ctx

/-- `_render_template_content`: evaluate through the strict-undefined
evaluator, then substitute command blocks. -/
def renderTemplateContent (C : Collab) (content : String)
    (ctx : List (String × TomlVal)) : Except String String :=
  match C.jinjaRender content ctx with
  | .error e => .error ("Failed to render template: " ++ e)
  | .ok rendered => substituteCommandBlocks C.shellCapture rendered

/-- `_run_template_action`: require a nonempty template name, fetch the
template, resolve and expand the optional context preset, collect a
context, render, and either echo the result or write it to the
(variable-substituted) output path. -/
def runTemplateAction (C : Collab) (action : Action) (vars : Vars)
    (index : Nat) : List Event × Except String Unit :=
  match lookupT action "name" with
  | some (.str nm) =>
      if nm = "" then
        ([], .error ("Template action #" ++ toString index ++
          " must include a non-empty 'name'."))
      else
        match C.fetchTemplate nm with
        | none => ([], .error ("Template '" ++ nm ++ "' does not exist."))
        | some content =>
            let ev0 := [Event.echo ("[" ++ toString index ++
              "] Rendering template '" ++ nm ++ "'.")]
            let presetE : Except String (Option (List (String × TomlVal))) :=
              match lookupT action "context" with
              | none => .ok none
              | some (.tbl kvs) =>
                  match resolveContextValues vars (.tbl kvs) with
                  | .error e => .error e
                  | .ok (.tbl resolved) =>
                      match expandDotted resolved with
                      | .error e => .error e
                      | .ok expanded => .ok (some expanded)
                  | .ok _ =>
                      .error ("Template action #" ++ toString index ++
                        " context must resolve to a table.")
              | some _ =>
                  .error ("Template action #" ++ toString index ++
                    " expected 'context' to be a table.")
            match presetE with
            | .error e => (ev0, .error e)
            | .ok preset =>
                match promptContextForTemplate C content preset with
                | .error e => (ev0, .error e)
                | .ok ctx =>
                    match renderTemplateContent C content ctx with
                    | .error e => (ev0, .error e)
                    | .ok rendered =>
                        match lookupT action "output" with
                        | none => (ev0 ++ [.echo rendered], .ok ())
                        | some (.str o) =>
                            if o = "" then
                              (ev0, .error ("Template action #" ++ toString index ++
                                " must supply 'output' as a non-empty string."))
                            else
                              match substituteVariables o vars with
                              | .error e => (ev0, .error e)
                              | .ok path =>
                                  (ev0 ++ [.fileWrite path rendered,
                                    .echo ("[" ++ toString index ++
                                      "] Saved output to '" ++ path ++ "'.")],
                                   .ok ())
                        | some _ =>
                            (ev0, .error ("Template action #" ++ toString index ++
                              " must supply 'output' as a non-empty string."))
  | some _ =>
      ([], .error ("Template action #" ++ toString index ++
        " must include a non-empty 'name'."))
  | none =>
      ([], .error ("Template action #" ++ toString index ++
        " must include a non-empty 'name'."))

/-- Dispatch on the action's "type", as the body of
`_execute_recipe_actions` does after the gate check. -/
def execDispatch (C : Collab) (action : Action) (vars : Vars)
    (index : Nat) : List Event × Except String Vars :=
  match lookupT action "type" with
  | some (.str "template") =>
      match runTemplateAction C action vars index with
      | (ev, .error e) => (ev, .error e)
      | (ev, .ok ()) => (ev, .ok vars)
  | some (.str "command") =>
      match runCommandAction C action vars index with
      | (ev, .error e) => (ev, .error e)
      | (ev, .ok ()) => (ev, .ok vars)
  | some (.str "prompt") => runPromptAction C action vars index
  | tv =>
      ([], .error ("Unsupported action type '" ++
        (match tv with
         | none => "None"
         | some v => pyStr v) ++ "' at position " ++ toString index ++ "."))

/-- `_execute_recipe_actions`: thread the variable table through the
actions in order (1-based indices), checking each gate first; a refused
gate skips the action; any failure aborts, leaving the already-produced
side effects in the trace. -/
def execActions (C : Collab) : List Action → Nat → Vars →
    List Event × Except String Vars
  | [], _, vars => ([], .ok vars)
  | a :: rest, index, vars =>
      match shouldRunAction C a vars index with
      | (ev, .error e) => (ev, .error e)
      | (ev, .ok false) =>
          match execActions C rest (index + 1) vars with
          | (ev2, r) => (ev ++ ev2, r)
      | (ev, .ok true) =>
          match execDispatch C a vars index with
          | (ev1, .error e) => (ev ++ ev1, .error e)
          | (ev1, .ok vars1) =>
              match execActions C rest (index + 1) vars1 with
              | (ev2, r) => (ev ++ ev1 ++ ev2, r)

/-! ## Notions used by the claims' statements -/

/-- The base of one access chain, when its reconstruction yields a path of
at least two segments (only such chains produce a classification signal). -/
def baseOf (n : JNode) : List String :=
  match flattenAccess n with
  | b :: _ :: _ => [b]
  | _ => []

/-- All bases of attribute/index access chains occurring anywhere in a
template (including inside loop iterables and item keys).  A name absent
from this list is used only as an atomic value: it is never read through
an attribute or index access. -/
def accessBases : JNode → List String
  | .name _ => []
  | .constStr _ => []
  | .constOther => []
  | .getattr obj attr => baseOf (.getattr obj attr) ++ accessBases obj
  | .getitem obj key => baseOf (.getitem obj key) ++ accessBases obj ++ accessBases key
  | .output body => accessBases body
  | .forStmt _ iter body els => accessBases iter ++ accessBases body ++ accessBases els
  | .nodeList h t => accessBases h ++ accessBases t
  | .nodeNil => []

/-- The keys bound by a document (comments have none). -/
def docKeys : List DocEntry → List String
  | [] => []
  | .comment _ :: rest => docKeys rest
  | .kv k _ :: rest => k :: docKeys rest

/-- How many entries of the document bind a key. -/
def countKey (d : List DocEntry) (k : String) : Nat :=
  (docKeys d).count k

/-- Whether the closing marker `<` `\x7d` occurs inside a character list. -/
def containsClose : List Char → Bool
  | [] => false
  | c :: rest =>
      match rest with
      | [] => false
      | r :: _ => (c = '<' && r = '\x7d') || containsClose rest

/-- Whether a string contains the closing command marker. -/
def containsCloseStr (s : String) : Bool := containsClose s.data

/-- `needle` occurs contiguously inside `hay`. -/
def substrOf (needle hay : String) : Prop :=
  ∃ a b : String, hay = a ++ needle ++ b

/-- Whether a string matches the identifier pattern
`[A-Za-z_][A-Za-z0-9_]*` of `VARIABLE_PATTERN`. -/
def isIdentName (s : String) : Bool :=
  match s.data with
  | [] => false
  | c :: cs => isIdentStart c && cs.all isIdentChar

/-! ## Concrete fixtures for the claims -/

/-- The parsed form of the template source `hello`: constant output only. -/
def tNoVars : JNode := .output (.nodeList (.constStr "hello") .nodeNil)

/-- The parsed form of
`(percent)for x in items(percent) (braces)x.a(braces) (percent)endfor(percent)`:
one loop over the bare name `items` whose bound element is read through an
attribute. -/
def tLoop : JNode :=
  .forStmt (.tname "x") (.name "items")
    (.output (.getattr (.name "x") "a")) .nodeNil

/-- The parsed form of a template reading the two names `user` and `host`
only as atomic values. -/
def tScalars : JNode :=
  .nodeList (.output (.name "user")) (.nodeList (.output (.name "host")) .nodeNil)

/-- A recipe document whose first action is a prompt and whose second action
carries an integer `gate` value. -/
def gateDoc : List (String × TomlVal) :=
  [("actions", .arr
    [.tbl [("type", .str "prompt"), ("prompt", .str "Name?"), ("var", .str "n")],
     .tbl [("type", .str "command"), ("command", .str "ls"), ("gate", .int 5)]])]

/-- The first action of `gateDoc`. -/
def gateAct1 : Action :=
  [("type", .str "prompt"), ("prompt", .str "Name?"), ("var", .str "n")]

/-- The second action of `gateDoc`. -/
def gateAct2 : Action :=
  [("type", .str "command"), ("command", .str "ls"), ("gate", .int 5)]

/-- A command action whose shell line references the unknown variable
`missing`. -/
def missingCmdAct : Action :=
  [("type", .str "command"), ("command", .str "echo $(missing)")]

/-- A prompt action used to shift `missingCmdAct` to a later position. -/
def promptAct : Action :=
  [("type", .str "prompt"), ("prompt", .str "Q?"), ("var", .str "p")]

/-- A fixed collaborator: every confirmation succeeds, prompts answer `v`,
commands exit 0, no templates exist. -/
def plainCollab : Collab where
  confirm := fun _ => true
  promptIn := fun _ _ => "v"
  runShellLine := fun _ _ => 0
  runShellArgv := fun _ _ => 0
  fetchTemplate := fun _ => none
  editText := fun _ => none
  parseToml := fun _ => .error "unused"
  parseJinja := fun _ => .nodeNil
  jinjaRender := fun _ _ => .ok ""
  shellCapture := fun _ => (0, "", "")

/-! # Theorems -/

/-! ## C1: skeleton output on a variable-free template -/

/-- C1: the claim states that `_build_toml_template`, called with no preset
on a template whose set of undeclared free variables is empty, returns the
empty string.  The code does not: the builder unconditionally adds the
leading comment to the document, so `dumps(doc).strip()` is never empty and
the function always returns at least the comment line.  On the
variable-free template source `hello` the result is the comment line plus a
newline, not the empty string.  (The builder's own `else`-branch returning
the empty string, and its caller's `if not toml_seed.strip()` short-circuit,
are therefore unreachable — evidence that the claimed behavior was the
intent and the code is a slip.) -/
theorem c1_comment_always_emitted :
    globalVarsOf tNoVars = [] ∧
    buildTomlTemplate tNoVars none = "# " ++ headerText ++ "\n" ∧
    buildTomlTemplate tNoVars none ≠ "" := by
  refine ⟨rfl, rfl, ?_⟩
  decide

/-! ## C5: command-value normalization -/

/-- Every element of a list accepted by `asStrings` is a string value. -/
theorem asStrings_all {xs : List TomlVal} {ss : List String}
    (h : asStrings xs = some ss) : ∀ x ∈ xs, ∃ t, x = TomlVal.str t := by
  induction xs generalizing ss with
  | nil => intro x hx; cases hx
  | cons y ys ih =>
    intro x hx
    cases y with
    | str t =>
      simp only [asStrings, Option.map_eq_some'] at h
      obtain ⟨ss1, hss1, _⟩ := h
      rcases List.mem_cons.mp hx with rfl | hx1
      · exact ⟨t, rfl⟩
      · exact ih hss1 x hx1
    | int n => simp [asStrings] at h
    | bool b => simp [asStrings] at h
    | arr zs => simp [asStrings] at h
    | tbl kvs => simp [asStrings] at h

/-- C5 counterexample: the claim says that in a mixed command list every
nested list of strings becomes an argument-vector entry; the empty nested
list is a list of strings, yet the code rejects it (`item and all(...)`
requires the nested list to be nonempty).  On `[[], "ls"]` the claim
predicts the two entries `argVector []` and `shellLine "ls"`, but the code
raises the mixed-command error. -/
theorem c5_counterexample :
    coerceCommandValue (.arr [.arr [], .str "ls"]) = .error mixedCommandMsg ∧
    coerceCommandValue (.arr [.arr [], .str "ls"]) ≠
      .ok [.argVector [], .shellLine "ls"] := by
  refine ⟨rfl, ?_⟩
  intro h
  rw [show coerceCommandValue (.arr [.arr [], .str "ls"])
      = .error mixedCommandMsg from rfl] at h
  exact Except.noConfusion h

/-- C5 (amended): normalization of a command value yields: for a bare
string, one shell-line entry; for an empty top-level list, a hard failure;
for a nonempty list consisting entirely of strings, exactly one
argument-vector entry; for a list containing at least one nested list,
elementwise normalization producing one entry per element, where a string
becomes a shell-line entry, a nonempty list of strings becomes an
argument-vector entry, and an empty nested list or an element of any other
shape is a hard failure. -/
theorem c5_coerce_command (s : String) (ys xs : List TomlVal)
    (ss : List String) (hys : asStrings ys = some ss) (hyne : ys ≠ [])
    (hmix : ∃ zs, TomlVal.arr zs ∈ xs) :
    coerceCommandValue (.str s) = .ok [.shellLine s] ∧
    coerceCommandValue (.arr []) = .error emptyCommandMsg ∧
    coerceCommandValue (.arr ys) = .ok [.argVector ss] ∧
    coerceCommandValue (.arr xs) = coerceCommandList xs ∧
    (∀ es, coerceCommandList xs = .ok es → es.length = xs.length) ∧
    (∀ t, coerceCommandElem (.str t) = .ok (.shellLine t)) ∧
    (∀ items sss, items ≠ [] → asStrings items = some sss →
      coerceCommandElem (.arr items) = .ok (.argVector sss)) ∧
    coerceCommandElem (.arr []) = .error mixedCommandMsg ∧
    (∀ v, (∀ t, v ≠ TomlVal.str t) → (∀ zs, v ≠ TomlVal.arr zs) →
      coerceCommandElem v = .error mixedCommandMsg) := by
  obtain ⟨zs, hzs⟩ := hmix
  have hxs_ne : xs ≠ [] := by
    intro h; rw [h] at hzs; cases hzs
  have hxs_none : asStrings xs = none := by
    cases hs : asStrings xs with
    | none => rfl
    | some ss1 =>
      obtain ⟨t, ht⟩ := asStrings_all hs _ hzs
      cases ht
  refine ⟨rfl, rfl, ?_, ?_, ?_, ?_, ?_, rfl, ?_⟩
  · match ys, hyne with
    | y :: ys1, _ =>
      simp only [coerceCommandValue, hys]
  · match xs, hxs_ne with
    | x :: xs1, _ =>
      simp only [coerceCommandValue, hxs_none]
  · intro es h
    clear hzs hxs_ne hxs_none
    induction xs generalizing es with
    | nil => cases h; rfl
    | cons x xs1 ih =>
      simp only [coerceCommandList] at h
      cases he : coerceCommandElem x with
      | error e => rw [he] at h; cases h
      | ok entry =>
        rw [he] at h
        cases hl : coerceCommandList xs1 with
        | error e => rw [hl] at h; cases h
        | ok rest =>
          rw [hl] at h
          cases h
          simp [ih rest hl]
  · intro t; rfl
  · intro items sss hne hsome
    match items, hne with
    | i :: items1, _ =>
      simp only [coerceCommandElem, hsome]
  · intro v hstr harr
    cases v with
    | str t => exact absurd rfl (hstr t)
    | arr zs1 => exact absurd rfl (harr zs1)
    | int n => rfl
    | bool b => rfl
    | tbl kvs => rfl

/-- C5 witness: the amended statement at the concrete inputs of the spec's
own examples, plus the forced empty-nested-list failure. -/
theorem c5_coerce_command_witness :
    coerceCommandValue (.str "echo hi") = .ok [.shellLine "echo hi"] ∧
    coerceCommandValue (.arr [.str "echo", .str "hi"])
      = .ok [.argVector ["echo", "hi"]] ∧
    coerceCommandValue (.arr [.arr [.str "echo", .str "hi"], .str "ls"])
      = coerceCommandList [.arr [.str "echo", .str "hi"], .str "ls"] := by
  have h := c5_coerce_command "echo hi" [.str "echo", .str "hi"]
    [.arr [.str "echo", .str "hi"], .str "ls"] ["echo", "hi"] rfl
    (by intro h; cases h) ⟨[.str "echo", .str "hi"], by simp⟩
  exact ⟨h.1, h.2.2.1, h.2.2.2.1⟩

/-! ## C6: context-value resolution -/

/-- C6 counterexample: the claim says a string value equal to a known
variable name resolves to that variable's raw value.  The code substitutes
first and only falls back to the raw value when substitution changed
nothing: with the table mapping the name `$(a)` to `RAW` and `a` to
`hello`, the string `$(a)` equals a known variable name, yet resolution
returns the substitution result `hello`, not `RAW`. -/
theorem c6_counterexample :
    keyMemS [("$(a)", "RAW"), ("a", "hello")] "$(a)" = true ∧
    lookupS [("$(a)", "RAW"), ("a", "hello")] "$(a)" = some "RAW" ∧
    resolveContextValues [("$(a)", "RAW"), ("a", "hello")] (.str "$(a)")
      = .ok (.str "hello") ∧
    resolveContextValues [("$(a)", "RAW"), ("a", "hello")] (.str "$(a)")
      ≠ .ok (.str "RAW") := by
  refine ⟨rfl, rfl, rfl, ?_⟩
  intro h
  rw [show resolveContextValues [("$(a)", "RAW"), ("a", "hello")] (.str "$(a)")
      = .ok (.str "hello") from rfl] at h
  simp at h

/-- C6 (amended): recursive resolution behaves as follows: a string that
placeholder substitution leaves unchanged and that equals a known variable
name resolves to that variable's raw value; any other string resolves to
its substitution result, with a substitution failure propagated; lists and
mappings are resolved elementwise recursively; all other values are
returned unchanged. -/
theorem c6_resolve_context (vars : Vars) (s t u raw r e : String)
    (n : Int) (b : Bool) (xs : List TomlVal) (kvs : List (String × TomlVal))
    (hs : substituteVariables s vars = .ok s) (hsm : lookupS vars s = some raw)
    (ht : substituteVariables t vars = .ok r) (hr : r ≠ t)
    (hu : substituteVariables u vars = .error e) :
    resolveContextValues vars (.str s) = .ok (.str raw) ∧
    resolveContextValues vars (.str t) = .ok (.str r) ∧
    resolveContextValues vars (.str u) = .error e ∧
    resolveContextValues vars (.arr xs)
      = (resolveContextList vars xs).map TomlVal.arr ∧
    resolveContextList vars xs = xs.mapM (resolveContextValues vars) ∧
    resolveContextValues vars (.tbl kvs)
      = (resolveContextTbl vars kvs).map TomlVal.tbl ∧
    resolveContextTbl vars kvs
      = kvs.mapM (fun p => (resolveContextValues vars p.2).map
          (fun v => (p.1, v))) ∧
    resolveContextValues vars (.int n) = .ok (.int n) ∧
    resolveContextValues vars (.bool b) = .ok (.bool b) := by
  refine ⟨?_, ?_, ?_, ?_, ?_, ?_, ?_, rfl, rfl⟩
  · simp [resolveContextValues, hs, hsm]
  · simp only [resolveContextValues, ht, if_neg hr]
  · simp only [resolveContextValues, hu]
  · simp only [resolveContextValues]
    cases resolveContextList vars xs <;> rfl
  · induction xs with
    | nil => rfl
    | cons x xs1 ih =>
      simp only [resolveContextList, ih, List.mapM_cons]
      cases resolveContextValues vars x with
      | error e1 => rfl
      | ok y =>
        cases hxs : xs1.mapM (resolveContextValues vars) <;>
          simp [bind, Except.bind, pure, Except.pure, hxs]
  · simp only [resolveContextValues]
    cases resolveContextTbl vars kvs <;> rfl
  · induction kvs with
    | nil => rfl
    | cons p rest ih =>
      obtain ⟨k, v⟩ := p
      simp only [resolveContextTbl, ih, List.mapM_cons]
      cases resolveContextValues vars v with
      | error e1 => rfl
      | ok y =>
        cases hxs : rest.mapM (fun p => (resolveContextValues vars p.2).map
            (fun v => (p.1, v))) <;>
          simp [bind, Except.bind, pure, Except.pure, Except.map, hxs]

/-- C6 witness: the amended statement at a concrete table. -/
theorem c6_resolve_context_witness :
    resolveContextValues [("a", "x")] (.str "a") = .ok (.str "x") ∧
    resolveContextValues [("a", "x")] (.str "$(a)") = .ok (.str "x") ∧
    resolveContextValues [("a", "x")] (.str "$(z)")
      = .error (unknownVarMsg "z") := by
  have h := c6_resolve_context [("a", "x")] "a" "$(a)" "$(z)" "x" "x"
    (unknownVarMsg "z") 0 true [] [] rfl rfl rfl (by decide) rfl
  exact ⟨h.1, h.2.1, h.2.2.1⟩

/-! ## C9: lexical scope in the introspector -/

/-- A nonempty string is not `isEmpty` (Python truthiness helper). -/
theorem isEmpty_false_of_ne {s : String} (h : s ≠ "") : s.isEmpty = false := by
  cases he : s.isEmpty
  · rfl
  · exact absurd ((String.isEmpty_iff s).mp he) h

/-- C9: `visit_For` pushes a scope of the flattened target names plus the
implicit "loop" name around the body only: an access `t.a` inside the body
of a loop `for t in iter` is classified under `listFields[iter]`, while the
same access in the loop's else clause (visited after the scope pops) is
classified as a global `nestedFields[t]`; name resolution is
innermost-first, so under two nested loops binding the same target the
inner loop's iterable receives the attribute and the outer one records
nothing; after the whole visit the scope and loop stacks are restored. -/
theorem c9_for_scope (t a iter A B : String)
    (hIter : iter ≠ "") (hB : B ≠ "") (hAB : A ≠ B) :
    (introspect (.forStmt (.tname t) (.name iter)
        (.output (.getattr (.name t) a)) .nodeNil)).listFields = [(iter, [a])] ∧
    (introspect (.forStmt (.tname t) (.name iter)
        (.output (.getattr (.name t) a)) .nodeNil)).nestedFields = [] ∧
    (introspect (.forStmt (.tname t) (.name iter)
        .nodeNil (.output (.getattr (.name t) a)))).listFields = [] ∧
    (introspect (.forStmt (.tname t) (.name iter)
        .nodeNil (.output (.getattr (.name t) a)))).nestedFields = [(t, [a])] ∧
    (introspect (.forStmt (.tname t) (.name A)
        (.forStmt (.tname t) (.name B) (.output (.getattr (.name t) a)) .nodeNil)
        .nodeNil)).listFields = [(B, [a])] ∧
    keyMem (introspect (.forStmt (.tname t) (.name A)
        (.forStmt (.tname t) (.name B) (.output (.getattr (.name t) a)) .nodeNil)
        .nodeNil)).listFields A = false ∧
    (introspect (.forStmt (.tname t) (.name iter)
        (.output (.getattr (.name t) a)) .nodeNil)).scopeStack = [[]] ∧
    (introspect (.forStmt (.tname t) (.name iter)
        (.output (.getattr (.name t) a)) .nodeNil)).loopStack = [] := by
  have hIe : iter.isEmpty = false := isEmpty_false_of_ne hIter
  have hBe : B.isEmpty = false := isEmpty_false_of_ne hB
  have hBA : B ≠ A := fun h => hAB h.symm
  refine ⟨?_, ?_, ?_, ?_, ?_, ?_, ?_, ?_⟩ <;>
    simp [introspect, initState, visitNode, registerAccess, flattenAccess,
      flattenGo, literalKey, isLocal, loopIterFind, extractTargetNames,
      iterableName, addAttr, keyMem, hIe, hBe, hAB, hBA]

/-- C9 witness: the scope behavior at concrete names. -/
theorem c9_for_scope_witness :
    (introspect (.forStmt (.tname "item") (.name "items")
        (.output (.getattr (.name "item") "qty")) .nodeNil)).listFields
      = [("items", ["qty"])] ∧
    (introspect (.forStmt (.tname "item") (.name "items")
        .nodeNil (.output (.getattr (.name "item") "qty")))).nestedFields
      = [("item", ["qty"])] ∧
    (introspect (.forStmt (.tname "item") (.name "xs")
        (.forStmt (.tname "item") (.name "ys")
          (.output (.getattr (.name "item") "qty")) .nodeNil)
        .nodeNil)).listFields = [("ys", ["qty"])] := by
  have h := c9_for_scope "item" "qty" "items" "xs" "ys"
    (by decide) (by decide) (by decide)
  exact ⟨h.1, h.2.2.2.1, h.2.2.2.2.1⟩

/-! ## Support lemmas for the scanning loops -/

/-- `splitClose` consumes its split plus the two closer characters. -/
theorem splitClose_length : ∀ u : List Char, ∀ p : List Char × List Char,
    splitClose u = some p → p.2.length + 2 ≤ u.length := by
  intro u
  induction u with
  | nil => intro p h; simp [splitClose] at h
  | cons c rest ih =>
    intro p h
    cases rest with
    | nil =>
      simp only [splitClose] at h
      split at h <;> simp [splitClose] at h
    | cons r rest1 =>
      simp only [splitClose] at h
      split at h
      · split at h
        · cases h
          simp
        · rw [Option.map_eq_some'] at h
          obtain ⟨q, hq, hqe⟩ := h
          have := ih q hq
          cases hqe
          simp at this ⊢
          omega
      · rw [Option.map_eq_some'] at h
        obtain ⟨q, hq, hqe⟩ := h
        have := ih q hq
        cases hqe
        simp at this ⊢
        omega

/-- `splitCloseNE` consumes its split plus the two closer characters. -/
theorem splitCloseNE_length : ∀ u : List Char, ∀ p : List Char × List Char,
    splitCloseNE u = some p → p.2.length + 2 ≤ u.length := by
  intro u p h
  cases u with
  | nil => simp [splitCloseNE] at h
  | cons c rest =>
    simp only [splitCloseNE] at h
    rw [Option.map_eq_some'] at h
    obtain ⟨q, hq, hqe⟩ := h
    have := splitClose_length rest q hq
    cases hqe
    simp at this ⊢
    omega

/-- The text after a found command marker is strictly shorter. -/
theorem findMarker_post_length : ∀ u : List Char,
    ∀ t : List Char × List Char × List Char,
    findMarker u = some t → t.2.2.length < u.length := by
  intro u
  induction u with
  | nil => intro t h; simp [findMarker] at h
  | cons c rest ih =>
    intro t h
    cases rest with
    | nil =>
      simp only [findMarker] at h
      split at h <;> simp [findMarker] at h
    | cons r rest1 =>
      simp only [findMarker] at h
      split at h
      · split at h
        · split at h
          · rename_i inner1 post1 heq
            cases h
            have := splitCloseNE_length rest1 (inner1, post1) heq
            simp at this ⊢
            omega
          · rw [Option.map_eq_some'] at h
            obtain ⟨q, hq, hqe⟩ := h
            have := ih q hq
            cases hqe
            simp at this ⊢
            omega
        · rw [Option.map_eq_some'] at h
          obtain ⟨q, hq, hqe⟩ := h
          have := ih q hq
          cases hqe
          simp at this ⊢
          omega
      · rw [Option.map_eq_some'] at h
        obtain ⟨q, hq, hqe⟩ := h
        have := ih q hq
        cases hqe
        simp at this ⊢
        omega

/-- A placeholder match consumes at least its three delimiter characters. -/
theorem placeholderAt_length : ∀ u : List Char, ∀ p : String × List Char,
    placeholderAt u = some p → p.2.length + 3 ≤ u.length := by
  intro u p h
  rw [placeholderAt.eq_def] at h
  split at h
  · rename_i c cs
    split at h
    · split at h
      · rename_i post1 heq
        cases h
        have hlen : (cs.takeWhile isIdentChar).length
            + (cs.dropWhile isIdentChar).length = cs.length := by
          rw [← List.length_append, List.takeWhile_append_dropWhile]
        rw [heq] at hlen
        simp at hlen ⊢
        omega
      · simp at h
    · simp at h
  · simp at h

/-- The text after a found placeholder is strictly shorter. -/
theorem findPlaceholder_post_length : ∀ u : List Char,
    ∀ t : List Char × String × List Char,
    findPlaceholder u = some t → t.2.2.length < u.length := by
  intro u
  induction u with
  | nil => intro t h; simp [findPlaceholder] at h
  | cons a rest ih =>
    intro t h
    simp only [findPlaceholder] at h
    split at h
    · rename_i name1 post1 heq
      cases h
      have := placeholderAt_length (a :: rest) (name1, post1) heq
      simp at this ⊢
      omega
    · rw [Option.map_eq_some'] at h
      obtain ⟨q, hq, hqe⟩ := h
      have := ih q hq
      cases hqe
      simp at this ⊢
      omega

/-- Fuel irrelevance: any fuel exceeding the text length gives the scan of
`substCommandGo`. -/
theorem substCommandGo_fuel (shell : String → Int × String × String) :
    ∀ f1 f2 : Nat, ∀ s : List Char, s.length < f1 → s.length < f2 →
    substCommandGo shell f1 s = substCommandGo shell f2 s := by
  intro f1
  induction f1 with
  | zero => intro f2 s h1; omega
  | succ f ih =>
    intro f2 s h1 h2
    cases f2 with
    | zero => omega
    | succ g =>
      simp only [substCommandGo]
      cases hm : findMarker s with
      | none => rfl
      | some t =>
        obtain ⟨pre, inner, post⟩ := t
        have hp := findMarker_post_length s (pre, inner, post) hm
        simp only at hp
        dsimp only
        simp only [ih g post (by omega) (by omega)]

/-- Fuel irrelevance for `substVarsGo`. -/
theorem substVarsGo_fuel (vars : Vars) :
    ∀ f1 f2 : Nat, ∀ s : List Char, s.length < f1 → s.length < f2 →
    substVarsGo vars f1 s = substVarsGo vars f2 s := by
  intro f1
  induction f1 with
  | zero => intro f2 s h1; omega
  | succ f ih =>
    intro f2 s h1 h2
    cases f2 with
    | zero => omega
    | succ g =>
      simp only [substVarsGo]
      cases hm : findPlaceholder s with
      | none => rfl
      | some t =>
        obtain ⟨pre, name, post⟩ := t
        have hp := findPlaceholder_post_length s (pre, name, post) hm
        simp only at hp
        dsimp only
        simp only [ih g post (by omega) (by omega)]

/-- Fuel irrelevance for `placeholderNamesGo`. -/
theorem placeholderNamesGo_fuel :
    ∀ f1 f2 : Nat, ∀ s : List Char, s.length < f1 → s.length < f2 →
    placeholderNamesGo f1 s = placeholderNamesGo f2 s := by
  intro f1
  induction f1 with
  | zero => intro f2 s h1; omega
  | succ f ih =>
    intro f2 s h1 h2
    cases f2 with
    | zero => omega
    | succ g =>
      simp only [placeholderNamesGo]
      cases hm : findPlaceholder s with
      | none => rfl
      | some t =>
        obtain ⟨pre, name, post⟩ := t
        have hp := findPlaceholder_post_length s (pre, name, post) hm
        simp only at hp
        dsimp only
        simp only [ih g post (by omega) (by omega)]

/-- A list without the closing marker keeps its tail without it. -/
theorem containsClose_tail {c : Char} {xs : List Char}
    (h : containsClose (c :: xs) = false) : containsClose xs = false := by
  cases xs with
  | nil => rfl
  | cons x xs1 =>
    simp only [containsClose, Bool.or_eq_false_iff] at h
    exact h.2

/-- One-step unfolding of `splitClose`. -/
theorem splitClose_cons (c : Char) (rest : List Char) :
    splitClose (c :: rest)
      = if c = '<' then
          match rest with
          | [] => none
          | r :: rest1 =>
              if r = '\x7d' then some ([], rest1)
              else (splitClose rest).map (fun p => (c :: p.1, p.2))
        else (splitClose rest).map (fun p => (c :: p.1, p.2)) := rfl

/-- Scanning a text that carries no closing marker before an appended
closer finds exactly that closer. -/
theorem splitClose_exact : ∀ xs post : List Char, containsClose xs = false →
    splitClose (xs ++ '<' :: '\x7d' :: post) = some (xs, post) := by
  intro xs
  induction xs with
  | nil => intro post h; rfl
  | cons c xs ih =>
    intro post h
    have hxs : containsClose xs = false := containsClose_tail h
    have hrec := ih post hxs
    cases xs with
    | nil =>
      by_cases hc : c = '<'
      · subst hc
        simp [splitClose]
      · simp [splitClose, hc, hrec]
    | cons x xs1 =>
      have hcc : ¬(c = '<' ∧ x = '\x7d') := by
        intro hp
        simp [containsClose, hp.1, hp.2] at h
      by_cases hc : c = '<'
      · have hx : ¬(x = '\x7d') := fun hx => hcc ⟨hc, hx⟩
        rw [List.cons_append, splitClose_cons, if_pos hc]
        dsimp only [List.cons_append]
        rw [if_neg hx, ← List.cons_append, hrec]
        rfl
      · rw [List.cons_append, splitClose_cons, if_neg hc, hrec]
        rfl

/-- The leftmost command-marker match of a text that begins with a marker
whose inner text is nonempty and closer-free is exactly that marker. -/
theorem findMarker_exact (inner post : List Char) (hne : inner ≠ [])
    (hnc : containsClose inner = false) :
    findMarker ('\x7b' :: '>' :: (inner ++ '<' :: '\x7d' :: post))
      = some ([], inner, post) := by
  match inner, hne with
  | i0 :: irest, _ =>
    have hirest : containsClose irest = false := containsClose_tail hnc
    have hsplit := splitClose_exact irest post hirest
    simp [findMarker, splitCloseNE, hsplit]

/-- Appending text ending in the closer leaves `rstripNewlines` untouched. -/
theorem rstripNewlines_closer (s : String) :
    rstripNewlines (s ++ "<\x7d") = s ++ "<\x7d" := by
  show rstripNewlines ⟨s.data ++ ['<', '\x7d']⟩ = ⟨s.data ++ ['<', '\x7d']⟩
  simp [rstripNewlines, List.dropWhile]

/-- A nonempty string has nonempty character data. -/
theorem data_ne_nil {s : String} (h : s ≠ "") : s.data ≠ [] := by
  intro hd
  apply h
  cases s
  simp at hd
  rw [hd]

/-- One-step unfolding of `substCommandGo` at positive fuel. -/
theorem substCommandGo_succ (shell : String → Int × String × String)
    (fuel : Nat) (s : List Char) :
    substCommandGo shell (fuel + 1) s
      = match findMarker s with
        | none => Except.ok s
        | some (pre, inner, post) =>
            match runCommandBlock shell ⟨inner⟩ with
            | Except.error e => Except.error e
            | Except.ok rep =>
                match substCommandGo shell fuel post with
                | Except.error e => Except.error e
                | Except.ok tail => Except.ok (pre ++ rep.data ++ tail) := rfl

/-! ## C4: command substitution -/

/-- C4: for a text beginning with a command marker whose inner text is
nonempty and contains no closing marker, substitution processes the marker
as the claim states: the inner text is trimmed; a trimmed-empty command is
a hard failure; with a zero exit status the marker is replaced by the
captured stdout with trailing newlines stripped (internal newlines
preserved, since only trailing `\n` are dropped) and scanning continues
only on the text after the marker; with a non-zero exit status the whole
substitution fails with a message containing the exit code and, when
non-empty, the trimmed stderr. -/
theorem c4_command_blocks (shell : String → Int × String × String)
    (inner post : String) (hne : inner ≠ "")
    (hnc : containsCloseStr inner = false) :
    (pyStrip inner = "" →
      substituteCommandBlocks shell ("\x7b>" ++ inner ++ "<\x7d" ++ post)
        = .error emptyBlockMsg) ∧
    (∀ code out err, pyStrip inner ≠ "" → shell (pyStrip inner) = (code, out, err) →
      (code = 0 →
        substituteCommandBlocks shell ("\x7b>" ++ inner ++ "<\x7d" ++ post)
          = (substituteCommandBlocks shell post).map
              (fun rest => rstripNewlines out ++ rest)) ∧
      (code ≠ 0 →
        substituteCommandBlocks shell ("\x7b>" ++ inner ++ "<\x7d" ++ post)
          = .error (commandFailedMsg (pyStrip inner) code err) ∧
        substrOf (toString code) (commandFailedMsg (pyStrip inner) code err) ∧
        (pyStrip err ≠ "" →
          substrOf (pyStrip err) (commandFailedMsg (pyStrip inner) code err)))) := by
  have hdata : ("\x7b>" ++ inner ++ "<\x7d" ++ post).data
      = '\x7b' :: '>' :: (inner.data ++ '<' :: '\x7d' :: post.data) := by
    simp [String.data_append]
  have hfm := findMarker_exact inner.data post.data (data_ne_nil hne) hnc
  have hlen : ("\x7b>" ++ inner ++ "<\x7d" ++ post).data.length
      = inner.data.length + post.data.length + 4 := by
    rw [hdata]; simp; omega
  have hmain : ∀ r, runCommandBlock shell inner = r →
      substituteCommandBlocks shell ("\x7b>" ++ inner ++ "<\x7d" ++ post)
        = match r with
          | .error e => .error e
          | .ok rep => (substituteCommandBlocks shell post).map
              (fun rest => rep ++ rest) := by
    intro r hr
    show (match substCommandChars shell ("\x7b>" ++ inner ++ "<\x7d" ++ post).data with
      | Except.error e => Except.error e
      | Except.ok cs => Except.ok (⟨cs⟩ : String)) = _
    rw [substCommandChars, hlen, hdata, substCommandGo_succ, hfm]
    dsimp only
    rw [show (⟨inner.data⟩ : String) = inner from rfl, hr]
    cases r with
    | error e => rfl
    | ok rep =>
      rw [substCommandGo_fuel shell (inner.data.length + post.data.length + 4)
        (post.data.length + 1) post.data (by omega) (by omega),
        show substCommandGo shell (post.data.length + 1) post.data
          = substCommandChars shell post.data from rfl]
      cases hsc : substCommandChars shell post.data with
      | error e => simp [substituteCommandBlocks, hsc, Except.map]
      | ok tail =>
        simp only [substituteCommandBlocks, hsc, Except.map]
        rfl
  constructor
  · intro hstrip
    have := hmain (.error emptyBlockMsg)
      (by simp [runCommandBlock, hstrip])
    simpa using this
  · intro code out err hstrip hsh
    constructor
    · intro hcode
      have := hmain (.ok (rstripNewlines out))
        (by simp [runCommandBlock, hstrip, hsh, hcode])
      exact this
    · intro hcode
      refine ⟨?_, ?_, ?_⟩
      · have := hmain (.error (commandFailedMsg (pyStrip inner) code err))
          (by simp [runCommandBlock, hstrip, hsh, hcode])
        simpa using this
      · exact ⟨"Command '" ++ pyStrip inner ++ "' failed with exit code ",
          (if pyStrip err = "" then "" else ": " ++ pyStrip err),
          by simp [commandFailedMsg, String.append_assoc]⟩
      · intro herr
        refine ⟨"Command '" ++ pyStrip inner ++ "' failed with exit code "
          ++ toString code ++ ": ", "", ?_⟩
        simp [commandFailedMsg, herr, String.append_assoc]

/-- C4 witness: the spec's own example: a marker running `echo hi` is
replaced by `hi` (trailing newline stripped); a whitespace marker is a hard
failure; a failing command aborts with its exit code and stderr in the
message. -/
theorem c4_command_blocks_witness :
    substituteCommandBlocks (fun _ => (0, "hi\n", ""))
      ("\x7b>" ++ "echo hi" ++ "<\x7d" ++ "") = .ok "hi" ∧
    substituteCommandBlocks (fun _ => (0, "hi\n", ""))
      ("\x7b>" ++ " " ++ "<\x7d" ++ "") = .error emptyBlockMsg ∧
    substituteCommandBlocks (fun _ => (3, "", "boom\n"))
      ("\x7b>" ++ "bad" ++ "<\x7d" ++ "")
      = .error (commandFailedMsg "bad" 3 "boom\n") := by
  have h1 := (c4_command_blocks (fun _ => (0, "hi\n", "")) "echo hi" ""
    (by decide) (by decide)).2 0 "hi\n" "" (by decide) rfl
  have h2 := (c4_command_blocks (fun _ => (0, "hi\n", "")) " " ""
    (by decide) (by decide)).1 (by decide)
  have h3 := (c4_command_blocks (fun _ => (3, "", "boom\n")) "bad" ""
    (by decide) (by decide)).2 3 "" "boom\n" (by decide) rfl
  refine ⟨?_, h2, ?_⟩
  · rw [(h1.1 rfl)]
    rfl
  · exact (h3.2 (by decide)).1

/-! ## C10: single-pass command substitution -/

/-- C10: command substitution is single-pass.  For a text consisting of one
marker whose command's captured stdout is itself marker syntax, the result
contains that marker text literally: the spliced output is never rescanned
and never executed.  The conclusion holds for every shell oracle with no
assumption on the inner command `c`, so the result cannot depend on any
execution of `c`. -/
theorem c10_single_pass (shell : String → Int × String × String)
    (inner c err : String) (hne : inner ≠ "")
    (hnc : containsCloseStr inner = false) (hst : pyStrip inner ≠ "")
    (hsh : shell (pyStrip inner) = (0, "\x7b>" ++ c ++ "<\x7d", err)) :
    substituteCommandBlocks shell ("\x7b>" ++ inner ++ "<\x7d" ++ "")
      = .ok ("\x7b>" ++ c ++ "<\x7d") := by
  have h := ((c4_command_blocks shell inner "" hne hnc).2 0
    ("\x7b>" ++ c ++ "<\x7d") err hst hsh).1 rfl
  rw [h]
  show Except.ok (rstripNewlines (("\x7b>" ++ c) ++ "<\x7d") ++ "") = _
  rw [rstripNewlines_closer ("\x7b>" ++ c)]
  simp [String.append_assoc]

/-- C10 witness: a command whose output is itself a marker around `rm -rf`
is inserted literally, not executed. -/
theorem c10_single_pass_witness :
    substituteCommandBlocks
      (fun cmd => if cmd = "emit" then (0, "\x7b>rm -rf /<\x7d", "") else (7, "", ""))
      ("\x7b>emit<\x7d" ++ "") = .ok "\x7b>rm -rf /<\x7d" := by
  have h := c10_single_pass
    (fun cmd => if cmd = "emit" then (0, "\x7b>rm -rf /<\x7d", "") else (7, "", ""))
    "emit" "rm -rf /" "" (by decide) (by decide) (by decide) (by decide)
  exact h

/-! ## Support lemmas for variable substitution -/

/-- A key reported absent has no binding. -/
theorem lookupS_eq_none : ∀ vars : Vars, ∀ k : String,
    keyMemS vars k = false → lookupS vars k = none := by
  intro vars k h
  induction vars with
  | nil => rfl
  | cons p rest ih =>
    obtain ⟨k1, v1⟩ := p
    simp only [keyMemS, List.any_cons, Bool.or_eq_false_iff] at h
    have hk : ¬(k1 = k) := by
      intro he
      rw [he] at h
      simp at h
    simp only [lookupS, if_neg hk]
    apply ih
    simp only [keyMemS]
    exact h.2

/-- A key reported present has a binding. -/
theorem lookupS_eq_some : ∀ vars : Vars, ∀ k : String,
    keyMemS vars k = true → ∃ v, lookupS vars k = some v := by
  intro vars k h
  induction vars with
  | nil => simp [keyMemS] at h
  | cons p rest ih =>
    obtain ⟨k1, v1⟩ := p
    by_cases hk : k1 = k
    · exact ⟨v1, by simp [lookupS, hk]⟩
    · simp only [keyMemS, List.any_cons, Bool.or_eq_true] at h
      rcases h with h | h
      · simp at h
        exact absurd h hk
      · obtain ⟨v, hv⟩ := ih h
        exact ⟨v, by simp [lookupS, hk, hv]⟩

/-- One-step unfolding of `substVarsGo` at positive fuel. -/
theorem substVarsGo_succ (vars : Vars) (fuel : Nat) (s : List Char) :
    substVarsGo vars (fuel + 1) s
      = match findPlaceholder s with
        | none => Except.ok s
        | some (pre, name, post) =>
            match lookupS vars name with
            | none => Except.error (unknownVarMsg name)
            | some v =>
                match substVarsGo vars fuel post with
                | Except.error e => Except.error e
                | Except.ok tail => Except.ok (pre ++ v.data ++ tail) := rfl

/-- One-step unfolding of `placeholderNamesGo` at positive fuel. -/
theorem placeholderNamesGo_succ (fuel : Nat) (s : List Char) :
    placeholderNamesGo (fuel + 1) s
      = match findPlaceholder s with
        | none => []
        | some (_, name, post) => name :: placeholderNamesGo fuel post := rfl

/-- When every scanned placeholder name is in the table, substitution
succeeds. -/
theorem substVarsGo_total (vars : Vars) : ∀ fuel : Nat, ∀ s : List Char,
    s.length < fuel →
    (∀ n ∈ placeholderNamesGo fuel s, keyMemS vars n = true) →
    ∃ out, substVarsGo vars fuel s = .ok out := by
  intro fuel
  induction fuel with
  | zero => intro s h; omega
  | succ f ih =>
    intro s hlen hall
    rw [substVarsGo_succ]
    cases hm : findPlaceholder s with
    | none => exact ⟨s, rfl⟩
    | some t =>
      obtain ⟨pre, name, post⟩ := t
      have hp := findPlaceholder_post_length s (pre, name, post) hm
      simp only at hp
      have hnames : placeholderNamesGo (f + 1) s
          = name :: placeholderNamesGo f post := by
        rw [placeholderNamesGo_succ, hm]
      have hmem : keyMemS vars name = true := by
        apply hall
        rw [hnames]
        exact List.mem_cons_self _ _
      obtain ⟨v, hv⟩ := lookupS_eq_some vars name hmem
      obtain ⟨tail, htail⟩ := ih post (by omega) (by
        intro n hn
        apply hall
        rw [hnames]
        exact List.mem_cons_of_mem _ hn)
      refine ⟨pre ++ v.data ++ tail, ?_⟩
      dsimp only
      rw [hv, htail]

/-- Substitution fails with the fixed unknown-variable message of the first
placeholder (in scanning order) whose name is absent from the table. -/
theorem substVarsGo_firstMissing (vars : Vars) : ∀ fuel : Nat, ∀ s : List Char,
    s.length < fuel → ∀ n : String,
    (placeholderNamesGo fuel s).find? (fun m => !keyMemS vars m) = some n →
    substVarsGo vars fuel s = .error (unknownVarMsg n) := by
  intro fuel
  induction fuel with
  | zero => intro s h; omega
  | succ f ih =>
    intro s hlen n hfind
    rw [substVarsGo_succ]
    cases hm : findPlaceholder s with
    | none =>
      rw [placeholderNamesGo_succ, hm] at hfind
      simp at hfind
    | some t =>
      obtain ⟨pre, name, post⟩ := t
      have hp := findPlaceholder_post_length s (pre, name, post) hm
      simp only at hp
      rw [placeholderNamesGo_succ, hm] at hfind
      cases hk : keyMemS vars name with
      | false =>
        rw [List.find?_cons_of_pos _ (by simp [hk])] at hfind
        obtain rfl : name = n := Option.some.inj hfind
        dsimp only
        rw [lookupS_eq_none vars name hk]
      | true =>
        rw [List.find?_cons_of_neg _ (by simp [hk])] at hfind
        obtain ⟨v, hv⟩ := lookupS_eq_some vars name hk
        dsimp only
        rw [hv, ih post (by omega) n hfind]

/-- Every identifier character fails to be a closing paren, so a maximal
identifier run splits exactly before an appended closer. -/
theorem dropWhile_ident_exact : ∀ cs post : List Char,
    cs.all isIdentChar = true →
    (cs ++ ')' :: post).dropWhile isIdentChar = ')' :: post
      ∧ (cs ++ ')' :: post).takeWhile isIdentChar = cs := by
  intro cs
  induction cs with
  | nil =>
    intro post h
    rw [List.nil_append]
    constructor
    · rw [List.dropWhile_cons_of_neg (by decide)]
    · rw [List.takeWhile_cons_of_neg (by decide)]
  | cons c cs1 ih =>
    intro post h
    simp only [List.all_cons, Bool.and_eq_true] at h
    constructor
    · rw [List.cons_append, List.dropWhile_cons_of_pos h.1]
      exact (ih post h.2).1
    · rw [List.cons_append, List.takeWhile_cons_of_pos h.1]
      rw [(ih post h.2).2]

/-- A text beginning with a well-formed placeholder matches exactly that
placeholder. -/
theorem findPlaceholder_exact (name post : String)
    (hid : isIdentName name = true) :
    findPlaceholder ('$' :: '(' :: (name.data ++ ')' :: post.data))
      = some ([], name, post.data) := by
  match hd : name.data with
  | [] =>
    rw [isIdentName.eq_def, hd] at hid
    exact absurd hid (by decide)
  | c :: cs =>
    have hid1 : isIdentStart c = true ∧ cs.all isIdentChar = true := by
      rw [isIdentName.eq_def, hd] at hid
      simpa using hid
    have hsplit := dropWhile_ident_exact cs post.data hid1.2
    have hat : placeholderAt ('$' :: '(' :: c :: (cs ++ ')' :: post.data))
        = some (name, post.data) := by
      have h1 : placeholderAt ('$' :: '(' :: c :: (cs ++ ')' :: post.data))
          = if isIdentStart c then
              match (cs ++ ')' :: post.data).dropWhile isIdentChar with
              | ')' :: post1 =>
                  some (⟨c :: (cs ++ ')' :: post.data).takeWhile isIdentChar⟩, post1)
              | _ => none
            else none := rfl
      rw [h1, hsplit.1, hsplit.2]
      simp only [hid1.1, if_true]
      have h2 : (⟨c :: cs⟩ : String) = name := by
        rw [← hd]
      rw [h2]
    simp only [List.cons_append]
    have h3 : findPlaceholder ('$' :: '(' :: c :: (cs ++ ')' :: post.data))
        = match placeholderAt ('$' :: '(' :: c :: (cs ++ ')' :: post.data)) with
          | some (n1, post1) => some ([], n1, post1)
          | none =>
              (findPlaceholder ('(' :: c :: (cs ++ ')' :: post.data))).map
                (fun t => ('$' :: t.1, t.2.1, t.2.2)) := rfl
    rw [h3, hat]

/-! ## C8: variable substitution -/

/-- C8 counterexample: the claim says the unknown-variable error message
identifies both the offending name and the containing action.
`_substitute_variables` does not receive the action or its index at all:
the recipe whose failing command is action 1 and the recipe whose failing
command is action 2 produce the identical fixed message, which therefore
cannot identify the containing action. -/
theorem c8_counterexample :
    (execActions plainCollab [missingCmdAct] 1 []).2
      = .error (unknownVarMsg "missing") ∧
    (execActions plainCollab [promptAct, missingCmdAct] 1 []).2
      = .error (unknownVarMsg "missing") ∧
    unknownVarMsg "missing"
      = "Unknown variable 'missing' referenced in recipe action." :=
  ⟨rfl, rfl, rfl⟩

/-- C8 (amended): substitution is a hard failure exactly at the first
scanned placeholder whose identifier is not a key of the table; the error
message contains the offending name (but no reference to the containing
action — it is a fixed message of the name alone); when every referenced
identifier is present, substitution succeeds, and a placeholder of a known
name is replaced by the corresponding table value, with scanning
continuing after it. -/
theorem c8_substitute_variables (text : String) (vars : Vars)
    (name v post : String) (hid : isIdentName name = true)
    (hv : lookupS vars name = some v) :
    ((∀ n ∈ placeholderNames text.data, keyMemS vars n = true) →
      ∃ out, substituteVariables text vars = .ok out) ∧
    (∀ n, (placeholderNames text.data).find? (fun m => !keyMemS vars m) = some n →
      substituteVariables text vars = .error (unknownVarMsg n) ∧
      substrOf n (unknownVarMsg n)) ∧
    substituteVariables ("$(" ++ name ++ ")" ++ post) vars
      = (substituteVariables post vars).map (fun rest => v ++ rest) := by
  refine ⟨?_, ?_, ?_⟩
  · intro hall
    obtain ⟨out, hout⟩ := substVarsGo_total vars (text.data.length + 1)
      text.data (by omega) hall
    exact ⟨⟨out⟩, by simp only [substituteVariables, substVarsChars, hout]⟩
  · intro n hfind
    have herr := substVarsGo_firstMissing vars (text.data.length + 1)
      text.data (by omega) n hfind
    refine ⟨by simp only [substituteVariables, substVarsChars, herr], ?_⟩
    exact ⟨"Unknown variable '", "' referenced in recipe action.",
      by simp [unknownVarMsg, String.append_assoc]⟩
  · have hdata : ("$(" ++ name ++ ")" ++ post).data
        = '$' :: '(' :: (name.data ++ ')' :: post.data) := by
      simp [String.data_append]
    have hlen : ("$(" ++ name ++ ")" ++ post).data.length
        = name.data.length + post.data.length + 3 := by
      rw [hdata]; simp; omega
    have hfp := findPlaceholder_exact name post hid
    show (match substVarsChars vars ("$(" ++ name ++ ")" ++ post).data with
      | Except.error e => Except.error e
      | Except.ok cs => Except.ok (⟨cs⟩ : String)) = _
    rw [substVarsChars, hlen, hdata, substVarsGo_succ, hfp]
    dsimp only
    rw [hv]
    rw [substVarsGo_fuel vars (name.data.length + post.data.length + 3)
      (post.data.length + 1) post.data (by omega) (by omega),
      show substVarsGo vars (post.data.length + 1) post.data
        = substVarsChars vars post.data from rfl]
    cases hsc : substVarsChars vars post.data with
    | error e => simp [substituteVariables, hsc, Except.map]
    | ok tail =>
      simp only [substituteVariables, hsc, Except.map]
      rfl

/-- C8 witness: the spec's own examples: `$(name)` with `name` present
substitutes its value; `$(missing)` is a hard failure naming `missing`. -/
theorem c8_substitute_variables_witness :
    substituteVariables ("$(" ++ "x" ++ ")" ++ " b") [("x", "1")]
      = .ok "1 b" ∧
    substituteVariables "a $(missing) b" [("x", "1")]
      = .error (unknownVarMsg "missing") := by
  have h := c8_substitute_variables "a $(missing) b" [("x", "1")]
    "x" "1" " b" (by decide) rfl
  constructor
  · rw [h.2.2]
    rfl
  · exact (h.2.1 "missing" (by decide)).1

/-! ## C7: gate validation time -/

/-- One-step unfolding of `execActions` on a nonempty list. -/
theorem execActions_cons (C : Collab) (a : Action) (rest : List Action)
    (i : Nat) (v : Vars) :
    execActions C (a :: rest) i v
      = match shouldRunAction C a v i with
        | (ev, .error e) => (ev, .error e)
        | (ev, .ok false) =>
            match execActions C rest (i + 1) v with
            | (ev2, r) => (ev ++ ev2, r)
        | (ev, .ok true) =>
            match execDispatch C a v i with
            | (ev1, .error e) => (ev ++ ev1, .error e)
            | (ev1, .ok vars1) =>
                match execActions C rest (i + 1) vars1 with
                | (ev2, r) => (ev ++ ev1 ++ ev2, r) := rfl

/-- Executing a concatenation runs the prefix first; only when it succeeds
does the suffix run, continuing the index count and the variable table. -/
theorem execActions_append (C : Collab) : ∀ xs ys : List Action,
    ∀ i : Nat, ∀ v : Vars,
    execActions C (xs ++ ys) i v
      = match execActions C xs i v with
        | (tr, .error e) => (tr, .error e)
        | (tr, .ok v1) =>
            match execActions C ys (i + xs.length) v1 with
            | (tr2, r2) => (tr ++ tr2, r2) := by
  intro xs
  induction xs with
  | nil =>
    intro ys i v
    show execActions C ys i v
      = match execActions C ys (i + ([] : List Action).length) v with
        | (tr2, r2) => ([] ++ tr2, r2)
    simp only [List.length_nil, Nat.add_zero]
    cases execActions C ys i v with
    | mk tr2 r2 => simp
  | cons a xs1 ih =>
    intro ys i v
    rw [List.cons_append, execActions_cons, execActions_cons C a xs1]
    cases hs : shouldRunAction C a v i with
    | mk ev r =>
      cases r with
      | error e => rfl
      | ok b =>
        cases b with
        | false =>
          dsimp only
          rw [ih ys (i + 1) v]
          cases hx : execActions C xs1 (i + 1) v with
          | mk tr r2 =>
            cases r2 with
            | error e => rfl
            | ok v1 =>
              dsimp only
              rw [show i + 1 + xs1.length = i + (a :: xs1).length from by
                simp; omega]
              cases execActions C ys (i + (a :: xs1).length) v1 with
              | mk tr2 r3 =>
                dsimp only
                rw [List.append_assoc]
        | true =>
          dsimp only
          cases hd : execDispatch C a v i with
          | mk ev1 r1 =>
            cases r1 with
            | error e => rfl
            | ok v1 =>
              dsimp only
              rw [ih ys (i + 1) v1]
              cases hx : execActions C xs1 (i + 1) v1 with
              | mk tr r2 =>
                cases r2 with
                | error e => rfl
                | ok v2 =>
                  dsimp only
                  rw [show i + 1 + xs1.length = i + (a :: xs1).length from by
                    simp; omega]
                  cases execActions C ys (i + (a :: xs1).length) v2 with
                  | mk tr2 r3 =>
                    dsimp only
                    simp [List.append_assoc]

/-- `_load_recipe_actions` validates only the per-action type field: it
never inspects gates. -/
theorem checkActions_ok : ∀ kvss : List Action, ∀ i : Nat,
    (∀ a ∈ kvss, ∃ t, lookupT a "type" = some (.str t) ∧ t ≠ "") →
    checkActions i (kvss.map TomlVal.tbl) = .ok kvss := by
  intro kvss
  induction kvss with
  | nil => intro i h; rfl
  | cons a rest ih =>
    intro i h
    obtain ⟨t, ht, htne⟩ := h a (List.mem_cons_self _ _)
    simp only [List.map_cons, checkActions, ht, if_neg htne]
    rw [ih (i + 1) (fun b hb => h b (List.mem_cons_of_mem _ hb))]

/-- Loading a recipe document succeeds whenever every action is a table
with a nonempty string type, regardless of any gate values. -/
theorem loadRecipeActions_ok (kvss : List Action) (hne : kvss ≠ [])
    (htyped : ∀ a ∈ kvss, ∃ t, lookupT a "type" = some (.str t) ∧ t ≠ "") :
    loadRecipeActions [("actions", .arr (kvss.map TomlVal.tbl))] = .ok kvss := by
  match kvss, hne with
  | a :: rest, _ =>
    simp only [loadRecipeActions, lookupT, if_pos rfl, List.map_cons]
    exact checkActions_ok (a :: rest) 1 htyped

/-- A gate that is present but not a nonempty string makes the gate check
fail with the gate message of the action's execution-time index. -/
theorem shouldRunAction_badGate (C : Collab) (a : Action) (vars : Vars)
    (i : Nat) (gv : TomlVal) (hg : lookupT a "gate" = some gv)
    (hbad : ∀ s, gv = .str s → s = "") :
    shouldRunAction C a vars i = ([], .error (gateMsg i)) := by
  cases gv with
  | str g =>
    have : g = "" := hbad g rfl
    simp [shouldRunAction, hg, this]
  | int n => simp [shouldRunAction, hg]
  | bool b => simp [shouldRunAction, hg]
  | arr xs => simp [shouldRunAction, hg]
  | tbl kvs => simp [shouldRunAction, hg]

/-- C7 counterexample: a recipe whose first action is a prompt and whose
second action carries the integer gate `5` parses successfully — so the
claim's parse-time failure does not happen — and execution then raises the
gate error only at action 2, after the prompt action has already stored a
variable: a side effect of an earlier action has occurred when the failure
is raised. -/
theorem c7_counterexample :
    loadRecipeActions gateDoc = .ok [gateAct1, gateAct2] ∧
    execActions plainCollab [gateAct1, gateAct2] 1 []
      = ([.storeVar "n" "v", .echo "[1] Stored variable 'n'."],
         .error (gateMsg 2)) ∧
    Event.storeVar "n" "v"
      ∈ (execActions plainCollab [gateAct1, gateAct2] 1 []).1 :=
  ⟨rfl, rfl, by decide⟩

/-- C7 (amended): a gate that is present but not a non-empty string is not
checked at parse time — `_load_recipe_actions` accepts any gate values as
long as each action is a table with a nonempty string type — and instead
fails execution when that action's gate is checked, after every earlier
action has run: the earlier actions' trace stands and the error carries
the failing action's one-based position. -/
theorem c7_gate_checked_at_execution (C : Collab) (kvss pre1 rest : List Action)
    (bad : Action) (gv : TomlVal) (v0 v1 : Vars) (tr : List Event)
    (hkv : kvss ≠ [])
    (htyped : ∀ a ∈ kvss, ∃ t, lookupT a "type" = some (.str t) ∧ t ≠ "")
    (hg : lookupT bad "gate" = some gv)
    (hbad : ∀ s, gv = .str s → s = "")
    (hpre : execActions C pre1 1 v0 = (tr, .ok v1)) :
    loadRecipeActions [("actions", .arr (kvss.map TomlVal.tbl))] = .ok kvss ∧
    execActions C (pre1 ++ bad :: rest) 1 v0
      = (tr, .error (gateMsg (pre1.length + 1))) := by
  refine ⟨loadRecipeActions_ok kvss hkv htyped, ?_⟩
  rw [execActions_append C pre1 (bad :: rest) 1 v0, hpre]
  show (match execActions C (bad :: rest) (1 + pre1.length) v1 with
    | (tr2, r2) => (tr ++ tr2, r2)) = _
  have hgate := shouldRunAction_badGate C bad v1 (1 + pre1.length) gv hg hbad
  simp only [execActions, hgate]
  rw [show 1 + pre1.length = pre1.length + 1 from by omega]
  simp

/-- C7 witness: the amended statement at the concrete two-action recipe. -/
theorem c7_gate_checked_at_execution_witness :
    loadRecipeActions
        [("actions", .arr ([gateAct1, gateAct2].map TomlVal.tbl))]
      = .ok [gateAct1, gateAct2] ∧
    execActions plainCollab ([gateAct1] ++ gateAct2 :: []) 1 []
      = ([.storeVar "n" "v", .echo "[1] Stored variable 'n'."],
         .error (gateMsg 2)) := by
  have h := c7_gate_checked_at_execution plainCollab [gateAct1, gateAct2]
    [gateAct1] [] gateAct2 (.int 5) []
    [("n", "v")] [.storeVar "n" "v", .echo "[1] Stored variable 'n'."]
    (by intro h; cases h)
    (by
      intro a ha
      rcases List.mem_cons.mp ha with rfl | ha1
      · exact ⟨"prompt", rfl, by decide⟩
      · rcases List.mem_cons.mp ha1 with rfl | h2
        · exact ⟨"command", rfl, by decide⟩
        · cases h2)
    rfl
    (by intro s hs; cases hs)
    rfl
  exact h

/-! ## Support lemmas for the skeleton builder -/

/-- Insertion keeps the elements. -/
theorem insertSorted_perm (x : String) : ∀ ys : List String,
    List.Perm (insertSorted x ys) (x :: ys) := by
  intro ys
  induction ys with
  | nil => rfl
  | cons y ys1 ih =>
    rw [insertSorted]
    split
    · rfl
    · exact List.Perm.trans (List.Perm.cons y ih) (List.Perm.swap x y ys1)

/-- Sorting keeps the elements. -/
theorem sortStrings_perm : ∀ xs : List String,
    List.Perm (sortStrings xs) xs := by
  intro xs
  induction xs with
  | nil => rfl
  | cons x xs1 ih =>
    exact List.Perm.trans (insertSorted_perm x (sortStrings xs1))
      (List.Perm.cons x ih)

/-- Sorting keeps membership. -/
theorem mem_sortStrings {a : String} {xs : List String} :
    a ∈ sortStrings xs ↔ a ∈ xs :=
  (sortStrings_perm xs).mem_iff

/-- Sorting keeps distinctness. -/
theorem nodup_sortStrings {xs : List String} (h : xs.Nodup) :
    (sortStrings xs).Nodup :=
  ((sortStrings_perm xs).nodup_iff).mpr h

/-- Sorting keeps nonemptiness. -/
theorem sortStrings_ne_nil {xs : List String} (h : xs ≠ []) :
    sortStrings xs ≠ [] := by
  intro hc
  apply h
  have := (sortStrings_perm xs).length_eq
  rw [hc] at this
  exact List.eq_nil_of_length_eq_zero this.symm

/-- Keyed insertion keeps the entries. -/
theorem insertByKey_perm {α : Type} (x : String × α) : ∀ ys : List (String × α),
    List.Perm (insertByKey x ys) (x :: ys) := by
  intro ys
  induction ys with
  | nil => rfl
  | cons y ys1 ih =>
    rw [insertByKey]
    split
    · rfl
    · exact List.Perm.trans (List.Perm.cons y ih) (List.Perm.swap x y ys1)

/-- Keyed sorting keeps the entries. -/
theorem sortByKey_perm {α : Type} : ∀ xs : List (String × α),
    List.Perm (sortByKey xs) xs := by
  intro xs
  induction xs with
  | nil => rfl
  | cons x xs1 ih =>
    exact List.Perm.trans (insertByKey_perm x (sortByKey xs1))
      (List.Perm.cons x ih)

/-- Keyed sorting permutes the key list. -/
theorem sortByKey_keys_perm {α : Type} (xs : List (String × α)) :
    List.Perm ((sortByKey xs).map Prod.fst) (xs.map Prod.fst) :=
  (sortByKey_perm xs).map Prod.fst

/-- The sorted undeclared-variable list is duplicate-free. -/
theorem globalVarsOf_nodup (t : JNode) : (globalVarsOf t).Nodup :=
  nodup_sortStrings (List.nodup_dedup _)

/-- Key membership is membership in the key list. -/
theorem keyMem_iff_mem {m : List (String × List String)} {k : String} :
    keyMem m k = true ↔ k ∈ m.map Prod.fst := by
  induction m with
  | nil => simp [keyMem]
  | cons p rest ih =>
    obtain ⟨k1, v1⟩ := p
    simp only [keyMem, List.any_cons, Bool.or_eq_true, List.map_cons,
      List.mem_cons]
    constructor
    · rintro (h | h)
      · simp at h
        exact Or.inl h.symm
      · exact Or.inr (ih.mp h)
    · rintro (h | h)
      · exact Or.inl (by simp [h])
      · exact Or.inr (ih.mpr h)

/-- Lookup succeeds exactly on present keys. -/
theorem lookupA_isSome {m : List (String × List String)} {k : String} :
    (lookupA m k).isSome = keyMem m k := by
  induction m with
  | nil => rfl
  | cons p rest ih =>
    obtain ⟨k1, v1⟩ := p
    by_cases hk : k1 = k
    · simp [lookupA, keyMem, hk]
    · simp only [lookupA, if_neg hk, keyMem, List.any_cons]
      rw [show (decide (k1 = k) : Bool) = false from by simp [hk]]
      simp only [Bool.false_or]
      exact ih

/-- `addAttr` adds at most the new key. -/
theorem addAttr_keys_sub : ∀ m : List (String × List String), ∀ k a k1 : String,
    k1 ∈ (addAttr m k a).map Prod.fst → k1 ∈ m.map Prod.fst ∨ k1 = k := by
  intro m
  induction m with
  | nil =>
    intro k a k1 h
    simp [addAttr] at h
    exact Or.inr h
  | cons p rest ih =>
    intro k a k1 h
    obtain ⟨k2, v2⟩ := p
    rw [addAttr] at h
    split at h
    · simp only [List.map_cons, List.mem_cons] at h ⊢
      rcases h with h | h
      · exact Or.inl (Or.inl h)
      · exact Or.inl (Or.inr h)
    · simp only [List.map_cons, List.mem_cons] at h ⊢
      rcases h with h | h
      · exact Or.inl (Or.inl h)
      · rcases ih k a k1 h with h1 | h1
        · exact Or.inl (Or.inr h1)
        · exact Or.inr h1

/-- `addAttr` keeps the key list duplicate-free. -/
theorem addAttr_keys_nodup : ∀ m : List (String × List String), ∀ k a : String,
    (m.map Prod.fst).Nodup → ((addAttr m k a).map Prod.fst).Nodup := by
  intro m
  induction m with
  | nil => intro k a h; simp [addAttr]
  | cons p rest ih =>
    intro k a h
    obtain ⟨k2, v2⟩ := p
    rw [addAttr]
    simp only [List.map_cons, List.nodup_cons] at h
    split
    · simp only [List.map_cons, List.nodup_cons]
      exact h
    · rename_i hk
      simp only [List.map_cons, List.nodup_cons]
      refine ⟨?_, ih k a h.2⟩
      intro hc
      rcases addAttr_keys_sub rest k a k2 hc with h1 | h1
      · exact h.1 h1
      · exact hk h1

/-- Registering one access keeps the list-field keys duplicate-free. -/
theorem registerAccess_listKeys_nodup (st : IState) (n : JNode)
    (h : (st.listFields.map Prod.fst).Nodup) :
    ((registerAccess st n).listFields.map Prod.fst).Nodup := by
  rw [registerAccess]
  split
  · split
    · split
      · split
        · exact h
        · exact addAttr_keys_nodup _ _ _ h
      · exact h
    · exact h
  · exact h

/-- Visiting keeps the list-field keys duplicate-free. -/
theorem visitNode_listKeys_nodup : ∀ n : JNode, ∀ st : IState,
    (st.listFields.map Prod.fst).Nodup →
    ((visitNode n st).listFields.map Prod.fst).Nodup := by
  intro n
  induction n with
  | name id => intro st h; exact h
  | constStr s => intro st h; exact h
  | constOther => intro st h; exact h
  | getattr obj attr ihObj =>
    intro st h
    exact ihObj _ (registerAccess_listKeys_nodup st _ h)
  | getitem obj key ihObj ihKey =>
    intro st h
    exact ihKey _ (ihObj _ (registerAccess_listKeys_nodup st _ h))
  | output body ihBody => intro st h; exact ihBody st h
  | forStmt target iter body els ihIter ihBody ihEls =>
    intro st h
    simp only [visitNode]
    apply ihEls
    apply ihBody
    exact h
  | nodeList hd tl ihHd ihTl =>
    intro st h
    exact ihTl _ (ihHd _ h)
  | nodeNil => intro st h; exact h

/-- The introspector's list-field keys are duplicate-free. -/
theorem introspect_listKeys_nodup (t : JNode) :
    ((introspect t).listFields.map Prod.fst).Nodup :=
  visitNode_listKeys_nodup t initState (by simp [initState])

/-- Registering one access grows the nested-field keys by at most the
chain's base. -/
theorem registerAccess_nestedKeys_sub (st : IState) (n : JNode) (k : String)
    (h : k ∈ (registerAccess st n).nestedFields.map Prod.fst) :
    k ∈ st.nestedFields.map Prod.fst ∨ k ∈ baseOf n := by
  rw [registerAccess] at h
  split at h
  · rename_i base attr rest heq
    split at h
    · split at h
      · split at h
        · exact Or.inl h
        · exact Or.inl h
      · exact Or.inl h
    · rcases addAttr_keys_sub _ _ _ _ h with h1 | h1
      · exact Or.inl h1
      · refine Or.inr ?_
        rw [baseOf, flattenAccess] at *
        rw [heq]
        simp [h1]
  · exact Or.inl h

/-- Visiting grows the nested-field keys by at most the access bases of the
visited node. -/
theorem visitNode_nestedKeys_sub : ∀ n : JNode, ∀ st : IState, ∀ k : String,
    k ∈ (visitNode n st).nestedFields.map Prod.fst →
    k ∈ st.nestedFields.map Prod.fst ∨ k ∈ accessBases n := by
  intro n
  induction n with
  | name id => intro st k h; exact Or.inl h
  | constStr s => intro st k h; exact Or.inl h
  | constOther => intro st k h; exact Or.inl h
  | getattr obj attr ihObj =>
    intro st k h
    rcases ihObj _ k h with h1 | h1
    · rcases registerAccess_nestedKeys_sub st _ k h1 with h2 | h2
      · exact Or.inl h2
      · exact Or.inr (by simp [accessBases, h2])
    · exact Or.inr (by simp [accessBases, h1])
  | getitem obj key ihObj ihKey =>
    intro st k h
    rcases ihKey _ k h with h1 | h1
    · rcases ihObj _ k h1 with h2 | h2
      · rcases registerAccess_nestedKeys_sub st _ k h2 with h3 | h3
        · exact Or.inl h3
        · exact Or.inr (by simp [accessBases, h3])
      · exact Or.inr (by simp [accessBases, h2])
    · exact Or.inr (by simp [accessBases, h1])
  | output body ihBody =>
    intro st k h
    rcases ihBody st k h with h1 | h1
    · exact Or.inl h1
    · exact Or.inr (by simp [accessBases, h1])
  | forStmt target iter body els ihIter ihBody ihEls =>
    intro st k h
    simp only [visitNode] at h
    rcases ihEls _ k h with h1 | h1
    · rcases ihBody _ k h1 with h2 | h2
      · exact Or.inl h2
      · exact Or.inr (by simp [accessBases, h2])
    · exact Or.inr (by simp [accessBases, h1])
  | nodeList hd tl ihHd ihTl =>
    intro st k h
    rcases ihTl _ k h with h1 | h1
    · rcases ihHd _ k h1 with h2 | h2
      · exact Or.inl h2
      · exact Or.inr (by simp [accessBases, h2])
    · exact Or.inr (by simp [accessBases, h1])
  | nodeNil => intro st k h; exact Or.inl h

/-- Every nested-field key of a template is the base of some attribute or
index access chain of the template. -/
theorem introspect_nestedKeys_sub (t : JNode) (k : String)
    (h : k ∈ (introspect t).nestedFields.map Prod.fst) : k ∈ accessBases t := by
  rcases visitNode_nestedKeys_sub t initState k h with h1 | h1
  · simp [initState] at h1
  · exact h1

/-- Assigning a fresh key appends its entry. -/
theorem setKV_fresh : ∀ d : List DocEntry, ∀ k : String, ∀ v : DocItem,
    k ∉ docKeys d → setKV d k v = d ++ [DocEntry.kv k v] := by
  intro d
  induction d with
  | nil => intro k v h; rfl
  | cons e rest ih =>
    intro k v h
    cases e with
    | comment c =>
      rw [docKeys] at h
      rw [setKV, ih k v h, List.cons_append]
    | kv k1 v1 =>
      rw [docKeys] at h
      simp only [List.mem_cons] at h
      push_neg at h
      rw [setKV, if_neg (fun he => h.1 he.symm), ih k v h.2, List.cons_append]

/-- Keys of a concatenation. -/
theorem docKeys_append : ∀ d1 d2 : List DocEntry,
    docKeys (d1 ++ d2) = docKeys d1 ++ docKeys d2 := by
  intro d1
  induction d1 with
  | nil => intro d2; rfl
  | cons e rest ih =>
    intro d2
    cases e with
    | comment c => rw [List.cons_append, docKeys, ih, docKeys]
    | kv k v => rw [List.cons_append, docKeys, ih, docKeys, List.cons_append]

/-- Folding fresh scalar-slot assignments appends the entries in order. -/
theorem foldl_setKV_scalars : ∀ xs : List String, ∀ d : List DocEntry,
    (∀ x ∈ xs, x ∉ docKeys d) → xs.Nodup →
    (xs.map (fun v => (v, DocItem.str ""))).foldl
        (fun d p => setKV d p.1 p.2) d
      = d ++ xs.map (fun v => DocEntry.kv v (DocItem.str "")) := by
  intro xs
  induction xs with
  | nil => intro d h1 h2; simp
  | cons x xs1 ih =>
    intro d h1 h2
    simp only [List.map_cons, List.foldl_cons]
    rw [setKV_fresh d x (DocItem.str "") (h1 x (List.mem_cons_self _ _))]
    simp only [List.nodup_cons] at h2
    rw [ih (d ++ [DocEntry.kv x (DocItem.str "")]) ?_ h2.2]
    · simp
    · intro q hq
      rw [docKeys_append]
      simp only [List.mem_append]
      push_neg
      refine ⟨h1 q (List.mem_cons_of_mem _ hq), ?_⟩
      show q ∉ docKeys [DocEntry.kv x (DocItem.str "")]
      simp only [docKeys, List.mem_singleton]
      intro he
      exact h2.1 (he ▸ hq)

/-- Folding fresh keyed assignments built from pairs appends the entries in
order. -/
theorem foldl_setKV_pairs (g : List String → DocItem) :
    ∀ ps : List (String × List String), ∀ d : List DocEntry,
    (∀ p ∈ ps, p.1 ∉ docKeys d) → (ps.map Prod.fst).Nodup →
    (ps.map (fun p => (p.1, g p.2))).foldl (fun d q => setKV d q.1 q.2) d
      = d ++ ps.map (fun p => DocEntry.kv p.1 (g p.2)) := by
  intro ps
  induction ps with
  | nil => intro d h1 h2; simp
  | cons p rest ih =>
    intro d h1 h2
    obtain ⟨k, attrs⟩ := p
    simp only [List.map_cons, List.foldl_cons]
    rw [setKV_fresh d k (g attrs) (h1 (k, attrs) (List.mem_cons_self _ _))]
    simp only [List.map_cons, List.nodup_cons] at h2
    rw [ih (d ++ [DocEntry.kv k (g attrs)]) ?_ h2.2]
    · simp
    · intro q hq
      rw [docKeys_append]
      simp only [List.mem_append]
      push_neg
      refine ⟨h1 q (List.mem_cons_of_mem _ hq), ?_⟩
      show q.1 ∉ docKeys [DocEntry.kv k (g attrs)]
      simp only [docKeys, List.mem_singleton]
      intro he
      exact h2.1 (he ▸ List.mem_map_of_mem Prod.fst hq)

/-- Keys of scalar-slot entries. -/
theorem docKeys_scalar_entries (xs : List String) :
    docKeys (xs.map (fun v => DocEntry.kv v (DocItem.str ""))) = xs := by
  induction xs with
  | nil => rfl
  | cons x xs1 ih => simp [docKeys, ih]

/-- Keys of keyed entries built from pairs. -/
theorem docKeys_pair_entries (g : List String → DocItem) :
    ∀ ps : List (String × List String),
    docKeys (ps.map (fun p => DocEntry.kv p.1 (g p.2))) = ps.map Prod.fst := by
  intro ps
  induction ps with
  | nil => rfl
  | cons p rest ih => simp [docKeys, ih]

/-- Lookup through keyed entries built from pairs is lookup in the pairs. -/
theorem lookupDoc_pair_entries (g : List String → DocItem) (k : String) :
    ∀ ps : List (String × List String),
    lookupDoc (ps.map (fun p => DocEntry.kv p.1 (g p.2))) k
      = (lookupA ps k).map g := by
  intro ps
  induction ps with
  | nil => rfl
  | cons p rest ih =>
    obtain ⟨k1, v1⟩ := p
    by_cases hk : k1 = k
    · simp [lookupDoc, lookupA, hk]
    · simp only [List.map_cons, lookupDoc, lookupA, if_neg hk]
      exact ih

/-- Lookup skips a prefix that does not bind the key. -/
theorem lookupDoc_append_of_notin : ∀ d1 d2 : List DocEntry, ∀ k : String,
    k ∉ docKeys d1 → lookupDoc (d1 ++ d2) k = lookupDoc d2 k := by
  intro d1
  induction d1 with
  | nil => intro d2 k h; rfl
  | cons e rest ih =>
    intro d2 k h
    cases e with
    | comment c =>
      rw [docKeys] at h
      rw [List.cons_append, lookupDoc, ih d2 k h]
    | kv k1 v1 =>
      rw [docKeys] at h
      simp only [List.mem_cons] at h
      push_neg at h
      rw [List.cons_append, lookupDoc, if_neg (fun he => h.1 he.symm),
        ih d2 k h.2]

/-- The table-variable keys are the sorted undeclared names that carry
nested fields and no list fields. -/
theorem tableVarsOf_keys (t : JNode) :
    (tableVarsOf t).map Prod.fst
      = (globalVarsOf t).filter
          (fun n => !keyMem (introspect t).listFields n
            && (lookupA (introspect t).nestedFields n).isSome) := by
  rw [tableVarsOf]
  generalize globalVarsOf t = xs
  induction xs with
  | nil => rfl
  | cons x xs1 ih =>
    rw [List.filterMap_cons, List.filter_cons]
    by_cases hlf : keyMem (introspect t).listFields x = true
    · rw [if_pos hlf]
      rw [show (!keyMem (introspect t).listFields x
          && (lookupA (introspect t).nestedFields x).isSome) = false from by
        simp [hlf]]
      dsimp only
      exact ih
    · have hlf1 : keyMem (introspect t).listFields x = false := by
        simpa using hlf
      rw [if_neg hlf]
      cases hnf : lookupA (introspect t).nestedFields x with
      | none =>
        rw [show (!keyMem (introspect t).listFields x
            && (none : Option (List String)).isSome) = false from by simp]
        dsimp only
        exact ih
      | some attrs =>
        rw [show (!keyMem (introspect t).listFields x
            && (some attrs).isSome) = true from by simp [hlf1]]
        dsimp only
        rw [List.map_cons, ih]
        rfl

/-- Every scalar variable carries no list and no nested classification. -/
theorem scalarVarsOf_mem (t : JNode) : ∀ n ∈ scalarVarsOf t,
    keyMem (introspect t).listFields n = false
      ∧ keyMem (introspect t).nestedFields n = false := by
  intro n hn
  rw [scalarVarsOf, List.mem_filter] at hn
  have := hn.2
  simp only [Bool.and_eq_true, Bool.not_eq_true'] at this
  exact this

/-- Every table-variable key carries a nested classification and no list
classification. -/
theorem tableVarsOf_mem (t : JNode) : ∀ k ∈ (tableVarsOf t).map Prod.fst,
    keyMem (introspect t).listFields k = false
      ∧ keyMem (introspect t).nestedFields k = true := by
  intro k hk
  rw [tableVarsOf_keys, List.mem_filter] at hk
  have := hk.2
  simp only [Bool.and_eq_true, Bool.not_eq_true'] at this
  refine ⟨this.1, ?_⟩
  rw [← lookupA_isSome]
  exact this.2

/-- Characterization of the no-preset skeleton document: the comment, the
scalar slots in order, then the sorted tables, then the sorted
arrays-of-tables. -/
theorem buildDoc_none_eq (t : JNode) :
    buildDoc t none
      = (DocEntry.comment headerText
          :: (scalarVarsOf t).map (fun v => DocEntry.kv v (DocItem.str "")))
          ++ (sortByKey (tableVarsOf t)).map
              (fun p => DocEntry.kv p.1 (tableItemFor p.2))
          ++ (sortByKey (introspect t).listFields).map
              (fun p => DocEntry.kv p.1 (aotItemFor p.2)) := by
  have hscalar_nodup : (scalarVarsOf t).Nodup :=
    (globalVarsOf_nodup t).filter _
  have htable_nodup : ((sortByKey (tableVarsOf t)).map Prod.fst).Nodup := by
    refine ((sortByKey_keys_perm _).nodup_iff).mpr ?_
    rw [tableVarsOf_keys]
    exact (globalVarsOf_nodup t).filter _
  have haot_nodup : ((sortByKey (introspect t).listFields).map Prod.fst).Nodup :=
    ((sortByKey_keys_perm _).nodup_iff).mpr (introspect_listKeys_nodup t)
  have htable_memS : ∀ k ∈ (sortByKey (tableVarsOf t)).map Prod.fst,
      keyMem (introspect t).listFields k = false
        ∧ keyMem (introspect t).nestedFields k = true := by
    intro k hk
    exact tableVarsOf_mem t k (((sortByKey_keys_perm _).mem_iff).mp hk)
  have haot_memS : ∀ k ∈ (sortByKey (introspect t).listFields).map Prod.fst,
      keyMem (introspect t).listFields k = true := by
    intro k hk
    rw [keyMem_iff_mem]
    exact ((sortByKey_keys_perm _).mem_iff).mp hk
  have h1 : ((scalarVarsOf t).map (fun v => (v, DocItem.str ""))).foldl
      (fun d p => setKV d p.1 p.2) [DocEntry.comment headerText]
      = DocEntry.comment headerText
        :: (scalarVarsOf t).map (fun v => DocEntry.kv v (DocItem.str "")) := by
    rw [foldl_setKV_scalars (scalarVarsOf t) [DocEntry.comment headerText]
      (by intro x hx; simp [docKeys]) hscalar_nodup]
    rfl
  have h2 : ((sortByKey (tableVarsOf t)).map
      (fun p => (p.1, tableItemFor p.2))).foldl (fun d q => setKV d q.1 q.2)
      (DocEntry.comment headerText
        :: (scalarVarsOf t).map (fun v => DocEntry.kv v (DocItem.str "")))
      = (DocEntry.comment headerText
          :: (scalarVarsOf t).map (fun v => DocEntry.kv v (DocItem.str "")))
        ++ (sortByKey (tableVarsOf t)).map
            (fun p => DocEntry.kv p.1 (tableItemFor p.2)) := by
    apply foldl_setKV_pairs
    · intro p hp
      have hk := List.mem_map_of_mem Prod.fst hp
      have hmem := htable_memS p.1 hk
      show p.1 ∉ docKeys (DocEntry.comment headerText :: _)
      rw [docKeys, docKeys_scalar_entries]
      intro hc
      have := scalarVarsOf_mem t p.1 hc
      rw [this.2] at hmem
      exact Bool.false_ne_true hmem.2
    · exact htable_nodup
  have h3 : ((sortByKey (introspect t).listFields).map
      (fun p => (p.1, aotItemFor p.2))).foldl (fun d q => setKV d q.1 q.2)
      ((DocEntry.comment headerText
        :: (scalarVarsOf t).map (fun v => DocEntry.kv v (DocItem.str "")))
        ++ (sortByKey (tableVarsOf t)).map
            (fun p => DocEntry.kv p.1 (tableItemFor p.2)))
      = (DocEntry.comment headerText
          :: (scalarVarsOf t).map (fun v => DocEntry.kv v (DocItem.str "")))
        ++ (sortByKey (tableVarsOf t)).map
            (fun p => DocEntry.kv p.1 (tableItemFor p.2))
        ++ (sortByKey (introspect t).listFields).map
            (fun p => DocEntry.kv p.1 (aotItemFor p.2)) := by
    apply foldl_setKV_pairs
    · intro p hp
      have hk := List.mem_map_of_mem Prod.fst hp
      have hmem := haot_memS p.1 hk
      rw [docKeys_append]
      simp only [List.mem_append]
      push_neg
      constructor
      · show p.1 ∉ docKeys (DocEntry.comment headerText :: _)
        rw [docKeys, docKeys_scalar_entries]
        intro hc
        have := scalarVarsOf_mem t p.1 hc
        rw [this.1] at hmem
        exact Bool.false_ne_true hmem
      · rw [docKeys_pair_entries]
        intro hc
        have := htable_memS p.1 hc
        rw [this.1] at hmem
        exact Bool.false_ne_true hmem
    · exact haot_nodup
  show ((sortByKey (introspect t).listFields).map
      (fun p => (p.1, aotItemFor p.2))).foldl (fun d q => setKV d q.1 q.2)
      (((sortByKey (tableVarsOf t)).map
          (fun p => (p.1, tableItemFor p.2))).foldl (fun d q => setKV d q.1 q.2)
        (((scalarVarsOf t).map (fun v => (v, DocItem.str ""))).foldl
          (fun d p => setKV d p.1 p.2) [DocEntry.comment headerText])) = _
  rw [h1, h2, h3]

/-- Leading comments bind no key. -/
theorem docKeys_comment_cons (c : String) (d : List DocEntry) :
    docKeys (DocEntry.comment c :: d) = docKeys d := rfl

/-- C2: a name in the classifier's `listFields` mapping gets exactly one
entry of the no-preset skeleton document, and that entry is a one-element
array-of-tables of empty string slots over a nonempty field set — never an
empty scalar slot and never a nested table, even when the name also appears
in `nestedFields` (the `in list_fields` guard on the scalar and table loops
makes the array classification win). -/
theorem c2_list_fields_single_aot (t : JNode) (name : String)
    (h : keyMem (introspect t).listFields name = true) :
    countKey (buildDoc t none) name = 1 ∧
    ∃ fields : List String, fields ≠ [] ∧
      lookupDoc (buildDoc t none) name
        = some (DocItem.aot [DocItem.tbl
            (fields.map (fun a => (a, DocItem.str "")))]) := by
  have hS : name ∉ scalarVarsOf t := by
    intro hc
    have h1 := (scalarVarsOf_mem t name hc).1
    rw [h1] at h
    exact Bool.false_ne_true h
  have hT : name ∉ (sortByKey (tableVarsOf t)).map Prod.fst := by
    intro hc
    have h1 := (tableVarsOf_mem t name
      (((sortByKey_keys_perm _).mem_iff).mp hc)).1
    rw [h1] at h
    exact Bool.false_ne_true h
  have hA : name ∈ (sortByKey (introspect t).listFields).map Prod.fst := by
    rw [(sortByKey_keys_perm _).mem_iff]
    exact keyMem_iff_mem.mp h
  have hAnodup : ((sortByKey (introspect t).listFields).map Prod.fst).Nodup :=
    ((sortByKey_keys_perm _).nodup_iff).mpr (introspect_listKeys_nodup t)
  have hS2 : name ∉ docKeys
      ((DocEntry.comment headerText
        :: (scalarVarsOf t).map (fun v => DocEntry.kv v (DocItem.str "")))
        ++ (sortByKey (tableVarsOf t)).map
            (fun p => DocEntry.kv p.1 (tableItemFor p.2))) := by
    rw [docKeys_append, docKeys_comment_cons, docKeys_scalar_entries,
      docKeys_pair_entries]
    intro hc
    rcases List.mem_append.mp hc with hc1 | hc1
    · exact hS hc1
    · exact hT hc1
  constructor
  · have hd : docKeys (buildDoc t none)
        = scalarVarsOf t
          ++ (sortByKey (tableVarsOf t)).map Prod.fst
          ++ (sortByKey (introspect t).listFields).map Prod.fst := by
      rw [buildDoc_none_eq, docKeys_append, docKeys_append,
        docKeys_comment_cons, docKeys_scalar_entries, docKeys_pair_entries,
        docKeys_pair_entries]
    rw [countKey, hd, List.count_append, List.count_append,
      List.count_eq_zero.mpr hS, List.count_eq_zero.mpr hT,
      List.count_eq_one_of_mem hAnodup hA]
  · have hsome : (lookupA (sortByKey (introspect t).listFields) name).isSome
        = true := by
      rw [lookupA_isSome, keyMem_iff_mem]
      exact hA
    obtain ⟨attrs, hattrs⟩ := Option.isSome_iff_exists.mp hsome
    refine ⟨sortStrings (if attrs.isEmpty then ["value"] else attrs), ?_, ?_⟩
    · apply sortStrings_ne_nil
      by_cases hie : attrs.isEmpty = true
      · rw [if_pos hie]
        simp
      · rw [if_neg hie]
        intro hc
        exact hie (by rw [hc]; rfl)
    · rw [buildDoc_none_eq, lookupDoc_append_of_notin _ _ name hS2,
        lookupDoc_pair_entries aotItemFor name, hattrs]
      rfl

/-- The list variable `items` of the loop fixture receives exactly one
entry, a one-element array-of-tables over its recorded field `a`. -/
theorem c2_list_fields_single_aot_witness :
    keyMem (introspect tLoop).listFields "items" = true ∧
    (countKey (buildDoc tLoop none) "items" = 1 ∧
      ∃ fields : List String, fields ≠ [] ∧
        lookupDoc (buildDoc tLoop none) "items"
          = some (DocItem.aot [DocItem.tbl
              (fields.map (fun a => (a, DocItem.str "")))])) :=
  ⟨rfl, c2_list_fields_single_aot tLoop "items" rfl⟩

/-- In the loop fixture `tLoop` the only undeclared free variable, `items`,
is used purely atomically (the access chain `x.a` is rooted at the bound
loop target `x`, not at any free variable), yet the produced skeleton is
not the pure scalar document: the loop classifies `items` into
`list_fields`, so the builder emits an array-of-tables for it. -/
theorem c3_counterexample :
    (∀ v ∈ globalVarsOf tLoop, v ∉ accessBases tLoop) ∧
    buildDoc tLoop none
      ≠ DocEntry.comment headerText
          :: (globalVarsOf tLoop).map
              (fun v => DocEntry.kv v (DocItem.str "")) := by
  constructor
  · decide
  · intro hc
    rw [show buildDoc tLoop none
        = [DocEntry.comment headerText,
           DocEntry.kv "items" (DocItem.aot [DocItem.tbl
             [("a", DocItem.str "")]])] from rfl,
      show globalVarsOf tLoop = ["items"] from rfl] at hc
    simp at hc

/-- C3 (amended): for every template in which every undeclared free
variable is used only as an atomic value AND the classifier records no
loop-iterated collections, the no-preset skeleton document is exactly the
leading comment followed by the undeclared names as empty scalar slots in
sorted order, with no tables and no arrays-of-tables.  (Atomic use alone
does not suffice: a variable iterated by a loop lands in `list_fields`
without ever being the base of an attribute or index access.) -/
theorem c3_scalars_only (t : JNode)
    (h1 : ∀ v ∈ globalVarsOf t, v ∉ accessBases t)
    (h2 : (introspect t).listFields = []) :
    buildDoc t none
      = DocEntry.comment headerText
          :: (globalVarsOf t).map (fun v => DocEntry.kv v (DocItem.str "")) := by
  have hnf : ∀ v ∈ globalVarsOf t,
      keyMem (introspect t).nestedFields v = false := by
    intro v hv
    cases hk : keyMem (introspect t).nestedFields v with
    | false => rfl
    | true =>
      exact absurd (introspect_nestedKeys_sub t v (keyMem_iff_mem.mp hk))
        (h1 v hv)
  have hscalar : scalarVarsOf t = globalVarsOf t := by
    rw [scalarVarsOf]
    apply List.filter_eq_self.mpr
    intro v hv
    show (!keyMem (introspect t).listFields v
      && !keyMem (introspect t).nestedFields v) = true
    rw [h2, hnf v hv]
    rfl
  have htable : tableVarsOf t = [] := by
    rw [tableVarsOf]
    apply List.filterMap_eq_nil_iff.mpr
    intro v hv
    show (if keyMem (introspect t).listFields v then none
      else match lookupA (introspect t).nestedFields v with
        | some attrs => some (v, attrs)
        | none => none) = none
    rw [h2]
    cases hl : lookupA (introspect t).nestedFields v with
    | none => rfl
    | some attrs =>
      exfalso
      have hs := lookupA_isSome
        (m := (introspect t).nestedFields) (k := v)
      rw [hl, hnf v hv] at hs
      simp at hs
  rw [buildDoc_none_eq, hscalar, htable, h2,
    show ((sortByKey ([] : List (String × List String))).map
      (fun p => DocEntry.kv p.1 (tableItemFor p.2))) = [] from rfl,
    show ((sortByKey ([] : List (String × List String))).map
      (fun p => DocEntry.kv p.1 (aotItemFor p.2))) = [] from rfl,
    List.append_nil, List.append_nil]

/-- On the two-scalar fixture the skeleton is the comment plus the two
names as empty slots in sorted order. -/
theorem c3_scalars_only_witness :
    (∀ v ∈ globalVarsOf tScalars, v ∉ accessBases tScalars) ∧
    (introspect tScalars).listFields = [] ∧
    buildDoc tScalars none
      = DocEntry.comment headerText
          :: (globalVarsOf tScalars).map
              (fun v => DocEntry.kv v (DocItem.str "")) :=
  ⟨by decide, rfl, c3_scalars_only tScalars (by decide) rfl⟩

end Kraken
